import Mathlib

/-!
# Verification of the notion-obsidian-sync synchronization engine

Shallow embedding of `sync-manager.ts` (class `SyncManager`) together with the
data model from `types.ts`.  JavaScript objects that preserve insertion order
are modelled as association lists (`List (String × α)`) with JS assignment
semantics (`jsSet`: overwrite in place, else append).  The external
collaborators (Notion API transport, Obsidian vault, `Date`) are modelled by an
explicit environment `Env` of total functions; fallible collaborator calls are
modelled by success predicates in `Env`.  JavaScript numbers appearing in
front matter are restricted to integers (`Int`); this restriction is noted at
each point where it matters.
-/

deriving instance DecidableEq for Except

namespace NotionSync

/-! ## JS-object helpers (insertion-ordered association lists) -/

/-- Lookup in a JS object: first binding for the key (JS objects have unique
keys; the first binding is the binding). -/
def jsGet {α : Type} (m : List (String × α)) (k : String) : Option α :=
  match m with
  | [] => none
  | (k', v) :: rest => if k' = k then some v else jsGet rest k

/-- JS property assignment `m[k] = v`: if the key exists its value is replaced
in place (key order kept), otherwise the binding is appended. -/
def jsSet {α : Type} (m : List (String × α)) (k : String) (v : α) : List (String × α) :=
  match m with
  | [] => [(k, v)]
  | (k', v') :: rest => if k' = k then (k', v) :: rest else (k', v') :: jsSet rest k v

/-! ## Character-level string helpers modelling JS string built-ins -/

/-- Strip leading whitespace (the left half of JS `String.prototype.trim`). -/
def trimCharsLeft : List Char → List Char
  | [] => []
  | c :: rest => if c.isWhitespace then trimCharsLeft rest else c :: rest

/-- JS `trim()`: strip whitespace from both ends. -/
def trimChars (l : List Char) : List Char :=
  trimCharsLeft ((trimCharsLeft l.reverse).reverse)

/-- JS `s.trim()` at the `String` level. -/
def strTrim (s : String) : String :=
  (trimChars s.toList).asString

/-- JS `s.toLowerCase()`. -/
def jsToLower (s : String) : String :=
  (s.toList.map Char.toLower).asString

/-- JS `s.endsWith(t)`. -/
def strEndsWith (s t : String) : Bool :=
  t.toList.reverse.isPrefixOf s.toList.reverse

/-- JS `s.startsWith(t)` (as a whole-string check on `String`s). -/
def strStartsWith (s t : String) : Bool :=
  t.toList.isPrefixOf s.toList

/-- JS `s.replace(/\r\n/g, '\n')` (the only regex replacement
`normalizeContent` performs): rewrite every CRLF pair, left to right. -/
def replaceCrLf : List Char → List Char
  | [] => []
  | '\r' :: '\n' :: rest => '\n' :: replaceCrLf rest
  | c :: rest => c :: replaceCrLf rest

/-- JS `replace(/\s+/g, rep)`: collapse every run of whitespace into the single
character `rep`.  The flag records whether the previous character was part of a
whitespace run. -/
def collapseWs (rep : Char) : Bool → List Char → List Char
  | _, [] => []
  | prevWs, c :: rest =>
    if c.isWhitespace then
      if prevWs then collapseWs rep true rest
      else rep :: collapseWs rep true rest
    else c :: collapseWs rep false rest

/-- JS `Array.prototype.join(sep)`. -/
def jsJoin (sep : String) : List String → String
  | [] => ""
  | [x] => x
  | x :: y :: rest => x ++ sep ++ jsJoin sep (y :: rest)

/-- JS `String.prototype.split(sep)` for a one-character separator. -/
def splitOnChar (sep : Char) : List Char → List (List Char)
  | [] => [[]]
  | c :: rest =>
    let r := splitOnChar sep rest
    if c = sep then [] :: r
    else
      match r with
      | [] => [[c]]
      | h :: t => (c :: h) :: t

/-- Index of the first occurrence of `c` (JS `indexOf` restricted to one
character), `none` when absent (JS `-1`). -/
def idxOfChar (c : Char) : List Char → Option Nat
  | [] => none
  | x :: rest => if x = c then some 0 else (idxOfChar c rest).map (· + 1)

/-- First occurrence split: `firstSplitChars pat l = some (pre, post)` when
`l = pre ++ pat ++ post` and `pat` occurs nowhere earlier.  This models the
lazy regex group `([\s\S]*?)` followed by the literal `pat`. -/
def firstSplitChars (pat : List Char) : List Char → Option (List Char × List Char)
  | [] => none
  | c :: rest =>
    if pat.isPrefixOf (c :: rest) then some ([], (c :: rest).drop pat.length)
    else
      match firstSplitChars pat rest with
      | some (pre, post) => some (c :: pre, post)
      | none => none

/-! ## Decimal printing and parsing (JS template interpolation / `Number`) -/

/-- Little-endian decimal digits of `n`, with explicit fuel so the recursion
is structural (any fuel at least `n` is exact; see
`natDigitsRev_eq_digits`). -/
def natDigitsRev : Nat → Nat → List Nat
  | 0, _ => []
  | fuel + 1, n => if n = 0 then [] else n % 10 :: natDigitsRev fuel (n / 10)

/-- Big-endian decimal digit characters of a natural number (the digits JS
`${n}` prints). -/
def natChars (n : Nat) : List Char :=
  ((natDigitsRev n n).map (fun d => Char.ofNat (48 + d))).reverse

/-- JS decimal rendering of a natural number. -/
def natRepr (n : Nat) : String :=
  if n = 0 then "0" else (natChars n).asString

/-- JS decimal rendering `${n}` of an integer. -/
def intRepr : Int → String
  | Int.ofNat m => natRepr m
  | Int.negSucc m => "-" ++ natRepr (m + 1)

/-- Numeric value of a digit character. -/
def digitVal (c : Char) : Nat := c.toNat - 48

/-- JS `Number(s)` on an all-digit string (the accumulator loop JS engines
run); `none` models `NaN`. -/
def charsToNat? (l : List Char) : Option Nat :=
  if l ≠ [] ∧ l.all Char.isDigit then
    some (l.foldl (fun n c => n * 10 + digitVal c) 0)
  else none

/-- Model of JS `Number` restricted to optionally-signed decimal integer
strings (and `Number("") = 0`).  Inputs that JS would read as fractional,
exponent, hexadecimal or infinite numbers are treated as `NaN`; no claim
depends on those forms. -/
def jsNumber? (l : List Char) : Option Int :=
  if l = [] then some 0
  else if l.head? = some '-' then (charsToNat? l.tail).map (fun n => -(n : Int))
  else (charsToNat? l).map (fun n => (n : Int))

/-! ## Front-matter values (`types.ts` front-matter scalars) -/

/-- A front-matter value as produced and consumed by `SyncManager`:
string, number (restricted to integers), boolean, or list of strings. -/
inductive FMValue
  | str (s : String)
  | num (n : Int)
  | bool (b : Bool)
  | list (xs : List String)
  deriving DecidableEq, Repr

/-- JS truthiness of a front-matter value (`if (v)`); arrays are always
truthy. -/
def FMValue.truthy : FMValue → Bool
  | .str s => s ≠ ""
  | .num n => n ≠ 0
  | .bool b => b
  | .list _ => true

/-- JS `String(v)` for a front-matter value (arrays stringify by joining with
a bare comma). -/
def FMValue.jsString : FMValue → String
  | .str s => s
  | .num n => intRepr n
  | .bool b => if b then "true" else "false"
  | .list xs => jsJoin "," xs

/-! ## Notion typed property values (`types.ts` / Notion API payloads)

Optional fields of the API payload (`select?.name`, `date?.start`, a `null`
number, …) are modelled with `Option`; a relation item's possibly-missing
`id` is an `Option String`. -/

/-- Result variant of a Notion `formula` property. -/
inductive FormulaResult
  | fstring (s : Option String)
  | fnumber (n : Option Int)
  | fboolean (b : Option Bool)
  | fdate (start : Option String)
  | fother
  deriving DecidableEq, Repr

/-- Result variant of a Notion `rollup` property. -/
inductive RollupResult
  | rarray (len : Nat)
  | rnumber (n : Option Int)
  | rother
  deriving DecidableEq, Repr

/-- A typed Notion property value.  Rich-text-bearing variants carry the list
of `plain_text` fragments.  `people` carries the member names, `files` only
its length (the code uses nothing else). -/
inductive NProp
  | title (texts : List String)
  | richText (texts : List String)
  | number (n : Option Int)
  | date (start : Option String)
  | select (name : Option String)
  | multiSelect (names : List String)
  | checkbox (b : Bool)
  | url (s : Option String)
  | email (s : Option String)
  | phoneNumber (s : Option String)
  | status (name : Option String)
  | relation (ids : List (Option String))
  | createdTime (s : String)
  | lastEditedTime (s : String)
  | createdBy (name : Option String)
  | lastEditedBy (name : Option String)
  | formula (f : FormulaResult)
  | rollup (r : RollupResult)
  | people (names : List String)
  | files (count : Nat)
  | unsupported (typeName : String)
  deriving DecidableEq, Repr

/-- The `types.ts` `NotionPage`: remote record snapshot. -/
structure NotionPage where
  id : String
  properties : List (String × NProp)
  content : String
  lastModified : String
  deriving DecidableEq, Repr

/-- The `types.ts` `ObsidianNote`: parsed local document. -/
structure ObsidianNote where
  path : String
  frontmatter : List (String × FMValue)
  content : String
  lastModified : Int
  notionId : Option FMValue
  deriving DecidableEq, Repr

/-- The `types.ts` `SyncDirection`. -/
inductive SyncDirection
  | bidirectional
  | notionToObsidian
  | obsidianToNotion
  deriving DecidableEq, Repr

/-- The `types.ts` `SyncMode`. -/
inductive SyncMode
  | manual
  | auto
  | scheduled
  deriving DecidableEq, Repr

/-- The `types.ts` `FieldMapping.type` (the string union
`'text' | 'list' | 'number' | 'checkbox' | 'date' | 'date & time'`). -/
inductive MappingType
  | text
  | list
  | number
  | checkbox
  | date
  | dateTime
  deriving DecidableEq, Repr

/-- The `types.ts` `FieldMapping`. -/
structure FieldMapping where
  notionProperty : String
  obsidianProperty : String
  type : MappingType
  deriving DecidableEq, Repr

/-- The `types.ts` `SyncConfig`. -/
structure SyncConfig where
  id : String
  name : String
  obsidianFolder : String
  notionDatabaseId : String
  syncDirection : SyncDirection
  syncMode : SyncMode
  fieldMappings : List FieldMapping
  lastSync : Int
  enabled : Bool
  deriving DecidableEq, Repr

/-- Property payload sent back to Notion by
`convertFrontmatterToNotionProperties`. -/
inductive NWriteProp
  | richText (content : String)
  | multiSelect (names : List String)
  | number (n : Int)
  | date (start : String)
  | checkbox (b : Bool)
  deriving DecidableEq, Repr

/-! ## External collaborators: vault + Notion API + `Date`

`notionApi.getPageInfo` used for relation display text either rejects
(`failure`) or resolves with a page whose title may be missing/empty. -/

/-- Outcome of `notionApi.getPageInfo(relationId)`:  `failure` models a
rejected promise; `success t` a resolved lookup where `t = none` models both a
null page-info and a missing title. -/
inductive LookupResult
  | failure
  | success (title : Option String)
  deriving DecidableEq, Repr

/-- Environment of external collaborators.  Functions model the black-box
API/vault/`Date` behaviour during one run; `…Ok` predicates tell which
fallible collaborator calls resolve rather than reject. -/
structure Env where
  /-- The `notionApi.getPageInfo` keyed by relation id. -/
  lookupTitle : String → LookupResult
  /-- The `notionApi.getDatabasePages` keyed by database id. -/
  fetchPages : String → Except String (List NotionPage)
  /-- The `new Date(s).getTime()`. -/
  dateToEpoch : String → Int
  /-- The `new Date(s).toISOString()`. -/
  isoOfDateString : String → String
  /-- The `Date.now()`. -/
  nowEpoch : Int
  /-- The `new Date().toISOString()`. -/
  nowIso : String
  /-- The `file.stat.mtime` of a vault file, keyed by path. -/
  fileMtime : String → Int
  /-- does `vault.create(path, …)` resolve? -/
  createOk : String → Bool
  /-- does `vault.modify(file, …)` resolve? -/
  modifyOk : String → Bool
  /-- does `vault.createFolder(path)` resolve? -/
  createFolderOk : String → Bool
  /-- does `notionApi.updatePage(pageId, …)` resolve? -/
  updatePageOk : String → Bool
  /-- does `notionApi.createPage(databaseId, …)` resolve? -/
  createPageOk : String → Bool
  /-- id returned by the n-th successful `createPage` call of the run. -/
  newPageId : Nat → String

/-! ## Relation display text (`SyncManager.getRelationDisplayText`) -/

/-- Display text of one relation entry whose id is truthy: `"Unknown"` when
the lookup rejects, `"Untitled"` when it resolves without a (truthy) title,
else the title. -/
def relationItemText (env : Env) (id : String) : String :=
  match env.lookupTitle id with
  | .failure => "Unknown"
  | .success t =>
    match t with
    | some s => if s = "" then "Untitled" else s
    | none => "Untitled"

/-- The accumulation loop of `getRelationDisplayText`: entries with a falsy
`id` contribute nothing; each per-entry lookup failure is caught in place. -/
def relTextsLoop (env : Env) : List (Option String) → List String
  | [] => []
  | r :: rest =>
    match r with
    | some id =>
      if id ≠ "" then relationItemText env id :: relTextsLoop env rest
      else relTextsLoop env rest
    | none => relTextsLoop env rest

/-- The `SyncManager.getRelationDisplayText`: resolve every relation id to display
text and join with `", "`. -/
def getRelationDisplayText (env : Env) (relations : List (Option String)) : String :=
  if relations = [] then ""
  else jsJoin ", " (relTextsLoop env relations)

/-! ## Notion property → front-matter value
(`SyncManager.convertNotionPropertiesToFrontmatter`) -/

/-- JS `x || default` for an optional string: `none` and `""` are falsy. -/
def strOrDefault (o : Option String) (d : String) : String :=
  match o with
  | some s => if s = "" then d else s
  | none => d

/-- The per-type conversion switch shared by the auto-convert and the mapped
path.  `none` is a JS `null`/`undefined` value (the auto path then emits `""`,
the mapped path skips the property). -/
def autoValue (env : Env) : NProp → Option FMValue
  | .title texts => some (.str (jsJoin "" texts))
  | .richText texts => some (.str (jsJoin "" texts))
  | .number n => n.map .num
  | .date start => start.map .str
  | .select name => name.map .str
  | .multiSelect names => some (.list names)
  | .checkbox b => some (.bool b)
  | .url s => s.map .str
  | .email s => s.map .str
  | .phoneNumber s => s.map .str
  | .status name => some (.str (strOrDefault name "Not started"))
  | .relation ids => some (.str (getRelationDisplayText env ids))
  | .createdTime s => some (.str s)
  | .lastEditedTime s => some (.str s)
  | .createdBy name => some (.str (strOrDefault name "Unknown user"))
  | .lastEditedBy name => some (.str (strOrDefault name "Unknown user"))
  | .formula f =>
    match f with
    | .fstring s => s.map .str
    | .fnumber n => n.map .num
    | .fboolean b => b.map .bool
    | .fdate start => start.map .str
    | .fother => some (.str "Formula result")
  | .rollup r =>
    match r with
    | .rarray len => some (.str (natRepr len ++ " items"))
    | .rnumber n => n.map .num
    | .rother => some (.str "Rollup result")
  | .people names => some (.str (strOrDefault (some (jsJoin ", " names)) "No people"))
  | .files count => some (.str (if count > 0 then natRepr count ++ " files" else "No files"))
  | .unsupported typeName => some (.str ("[" ++ typeName ++ "]"))

/-- The mapped path uses the same switch but its `default:` branch `continue`s
instead of emitting a `[type]` tag. -/
def mappedValue (env : Env) (p : NProp) : Option FMValue :=
  match p with
  | .unsupported _ => none
  | _ => autoValue env p

/-- The `propName.toLowerCase().replace(/\s+/g, '_')`. -/
def fmKeyOfPropName (s : String) : String :=
  (collapseWs '_' false (jsToLower s).toList).asString

/-- The `SyncManager.convertNotionPropertiesToFrontmatter`.  With an empty mapping
list every property is auto-converted (a null/undefined value is emitted as
`""`); with mappings, only mapped-and-present properties with a non-null
converted value are emitted. -/
def convertNotionPropertiesToFrontmatter (env : Env) (properties : List (String × NProp))
    (config : SyncConfig) : List (String × FMValue) :=
  if config.fieldMappings = [] then
    properties.foldl
      (fun fm kv =>
        jsSet fm (fmKeyOfPropName kv.1) ((autoValue env kv.2).getD (.str "")))
      []
  else
    config.fieldMappings.foldl
      (fun fm m =>
        match jsGet properties m.notionProperty with
        | none => fm
        | some p =>
          match mappedValue env p with
          | some v => jsSet fm m.obsidianProperty v
          | none => fm)
      []

/-! ## Front matter → Notion property payload
(`SyncManager.convertFrontmatterToNotionProperties`) -/

/-- JS `Number(v)` for a front-matter value (`Number(true) = 1`,
`Number(["5"]) = 5` via string conversion); `none` is `NaN`. -/
def jsNumberOfFM : FMValue → Option Int
  | .num n => some n
  | .str s => jsNumber? s.toList
  | .bool b => some (if b then 1 else 0)
  | .list xs => jsNumber? (jsJoin "," xs).toList

/-- The `SyncManager.convertFrontmatterToNotionProperties`: with no field mappings
the conversion is refused (empty payload); otherwise each mapping coerces the
local value according to its declared semantic type. -/
def convertFrontmatterToNotionProperties (frontmatter : List (String × FMValue))
    (config : SyncConfig) : List (String × NWriteProp) :=
  if config.fieldMappings = [] then []
  else
    config.fieldMappings.foldl
      (fun props m =>
        match jsGet frontmatter m.obsidianProperty with
        | none => props
        | some v =>
          match m.type with
          | .text => jsSet props m.notionProperty (.richText v.jsString)
          | .list =>
            let values := match v with | .list xs => xs | other => [other.jsString]
            jsSet props m.notionProperty (.multiSelect values)
          | .number =>
            match jsNumberOfFM v with
            | some n => jsSet props m.notionProperty (.number n)
            | none => props
          | .date => jsSet props m.notionProperty (.date v.jsString)
          | .dateTime => jsSet props m.notionProperty (.date v.jsString)
          | .checkbox => jsSet props m.notionProperty (.checkbox v.truthy))
      []

/-! ## Filename derivation (`SyncManager.getFileNameFromPage`) -/

/-- JS `String.prototype.includes`: some occurrence of `t` inside `s`. -/
def strContains (s t : String) : Bool := (firstSplitChars t.toList s.toList).isSome

/-- The `SyncManager.sanitizeFileName`: remove filesystem-invalid characters,
collapse whitespace runs to single spaces, trim, truncate to 100. -/
def sanitizeFileName (name : String) : String :=
  ((trimChars (collapseWs ' ' false
      (name.toList.filter (fun c =>
        !(c = '<' || c = '>' || c = ':' || c = '"' || c = '/' || c = '\\' ||
          c = '|' || c = '?' || c = '*'))))).asString).take 100

/-- The mapping `find` of step (1): remote property name whose lower-case form
contains `"title"` or equals `"name"`. -/
def titleMappingOf (config : SyncConfig) : Option FieldMapping :=
  config.fieldMappings.find? (fun m =>
    strContains (jsToLower m.notionProperty) "title" || jsToLower m.notionProperty == "name")

/-- Is the property a `title` with a non-empty first fragment whose trim is
non-empty? (the step (2) loop condition together with its inner guard). -/
def isUsableTitle : NProp → Bool
  | .title texts => 0 < texts.length && strTrim (texts.headD "") ≠ ""
  | _ => false

/-- First `plain_text` fragment of a `title` property (`title[0].plain_text`). -/
def firstTitleText : NProp → String
  | .title texts => texts.headD ""
  | _ => ""

/-- Step (1): the title-ish field mapping, when its remote property exists, is
title-typed and holds usable text. -/
def fileNameStep1 (page : NotionPage) (config : SyncConfig) : Option String :=
  match titleMappingOf config with
  | none => none
  | some m =>
    match jsGet page.properties m.notionProperty with
    | none => none
    | some p => if isUsableTitle p then some (sanitizeFileName (firstTitleText p)) else none

/-- Step (2): first property (in object order) typed `title` with usable text. -/
def fileNameStep2 (page : NotionPage) : Option String :=
  (page.properties.find? (fun kp => isUsableTitle kp.2)).map
    (fun kp => sanitizeFileName (firstTitleText kp.2))

/-- Step (3): the property literally named `Name` when it holds usable title
text. -/
def fileNameStep3 (page : NotionPage) : Option String :=
  match jsGet page.properties "Name" with
  | none => none
  | some p => if isUsableTitle p then some (sanitizeFileName (firstTitleText p)) else none

/-- The `SyncManager.getFileNameFromPage`: the four-step fallback chain ending in
`Notion-Page-` plus the first 8 characters of the page id. -/
def getFileNameFromPage (page : NotionPage) (config : SyncConfig) : String :=
  match fileNameStep1 page config with
  | some r => r
  | none =>
    match fileNameStep2 page with
    | some r => r
    | none =>
      match fileNameStep3 page with
      | some r => r
      | none => "Notion-Page-" ++ page.id.take 8

/-! ## Markdown serialization (`SyncManager.createMarkdownContent`) -/

/-- YAML-ish rendering of one front-matter value: strings double-quoted, lists
bracketed with double-quoted comma-joined elements, other scalars bare. -/
def renderFMValue : FMValue → String
  | .list xs => "[" ++ jsJoin ", " (xs.map (fun v => "\"" ++ v ++ "\"")) ++ "]"
  | .str s => "\"" ++ s ++ "\""
  | .num n => intRepr n
  | .bool b => if b then "true" else "false"

/-- The `frontmatterYaml +=` loop body: one `key: value` line per entry. -/
def yamlLines : List (String × FMValue) → String
  | [] => ""
  | (k, v) :: rest => k ++ ": " ++ renderFMValue v ++ "\n" ++ yamlLines rest

/-- The `SyncManager.createMarkdownContent`: a `---`-delimited block (when the
front matter is non-empty) followed by a blank line and the body. -/
def createMarkdownContent (frontmatter : List (String × FMValue)) (content : String) : String :=
  if frontmatter = [] then content
  else "---\n" ++ yamlLines frontmatter ++ "---\n\n" ++ content

/-! ## Markdown parsing (`SyncManager.parseMarkdownFile`) -/

/-- JS `v.replace(/^"(.*)"$/, '$1')`: strip one pair of surrounding double
quotes (needs at least two characters; `.*` cannot span the ends otherwise). -/
def stripQuotes (e : List Char) : List Char :=
  if 2 ≤ e.length ∧ e.head? = some '"' ∧ e.getLast? = some '"' then (e.drop 1).dropLast
  else e

/-- Value-type inference of the hand-rolled YAML parser: quoted string strips
quotes; bracketed form splits on commas; `true`/`false`; else numeric; else
bare string. -/
def parseFMValue (l : List Char) : FMValue :=
  if l.head? = some '"' ∧ l.getLast? = some '"' then .str ((l.drop 1).dropLast).asString
  else if l.head? = some '[' ∧ l.getLast? = some ']' then
    .list ((splitOnChar ',' ((l.drop 1).dropLast)).map
      (fun e => (stripQuotes (trimChars e)).asString))
  else if l = "true".toList then .bool true
  else if l = "false".toList then .bool false
  else
    match jsNumber? l with
    | some n => .num n
    | none => .str l.asString

/-- One iteration of the YAML-line loop: split on the first colon (skipping
lines whose first colon is absent or at index 0) and assign the parsed value. -/
def parseYamlLine (fm : List (String × FMValue)) (l : List Char) : List (String × FMValue) :=
  match idxOfChar ':' l with
  | none => fm
  | some i =>
    if 0 < i then
      jsSet fm (trimChars (l.take i)).asString (parseFMValue (trimChars (l.drop (i + 1))))
    else fm

/-- The regex `/^---\n([\s\S]*?)\n---\n/` of `parseMarkdownFile`: when the
document starts with `---\n`, lazily find the closing `\n---\n`; the result is
(group 1, the text after the whole match). -/
def matchFMHeader (content : String) : Option (String × String) :=
  let cs := content.toList
  if ['-', '-', '-', '\n'].isPrefixOf cs then
    match firstSplitChars ['\n', '-', '-', '-', '\n'] (cs.drop 4) with
    | some (g, rest) => some (g.asString, rest.asString)
    | none => none
  else none

/-- Front-matter map and body of a document: absence of the marker block (or
any marker mismatch) degrades to an empty map with the full content as body. -/
def parseFrontmatterAndBody (content : String) : List (String × FMValue) × String :=
  match matchFMHeader content with
  | none => ([], content)
  | some (g, rest) => ((splitOnChar '\n' g.toList).foldl parseYamlLine [], rest)

/-- The `SyncManager.parseMarkdownFile` (the file's `stat.mtime` is supplied by
the caller from the vault). -/
def parseMarkdownFile (path : String) (content : String) (mtime : Int) : ObsidianNote :=
  let parsed := parseFrontmatterAndBody content
  { path := path
    frontmatter := parsed.1
    content := parsed.2
    lastModified := mtime
    notionId := jsGet parsed.1 "notionId" }

/-! ## Change detection (`hasSignificantChanges`, `normalizeValue`,
`normalizeContent`) -/

/-- Insertion step of the model of JS `Array.prototype.sort()` on strings. -/
def insertSorted (x : String) : List String → List String
  | [] => [x]
  | y :: rest => if x ≤ y then x :: y :: rest else y :: insertSorted x rest

/-- JS `xs.sort()` on an array of strings (lexicographic). -/
def sortStrings (l : List String) : List String := l.foldr insertSorted []

/-- The `SyncManager.normalizeValue`: null/undefined → `""`; arrays sorted then
comma-joined; other values stringified and trimmed. -/
def normalizeValue (v : Option FMValue) : String :=
  match v with
  | none => ""
  | some (.list xs) => jsJoin "," (sortStrings xs)
  | some other => strTrim other.jsString

/-- The `SyncManager.normalizeContent`: CRLF → LF, then trim. -/
def normalizeContent (content : String) : String :=
  strTrim (replaceCrLf content.toList).asString

/-- The `SyncManager.hasSignificantChanges`: some field mapping whose local-side
values (note: both sides are read at the *local* property key) normalize
differently. -/
def hasSignificantChanges (notion obsidian : List (String × FMValue))
    (config : SyncConfig) : Bool :=
  config.fieldMappings.any (fun m =>
    normalizeValue (jsGet notion m.obsidianProperty) ≠
      normalizeValue (jsGet obsidian m.obsidianProperty))

/-! ## The observable world: vault contents and remote database state

Writes performed by the engine go through exactly the operations below —
`vault.create`, `vault.modify`, `vault.createFolder`, `notionApi.createPage`,
`notionApi.updatePage` — so `World` mutation is confined to them. -/

/-- One remote page's mutable server-side state as far as the engine writes
it. -/
structure RemotePage where
  properties : List (String × NWriteProp)
  content : Option String
  deriving DecidableEq, Repr

/-- Vault and remote state. `apiCreateCount` counts `createPage` calls so the
environment can supply the fresh ids the API would return. -/
structure World where
  files : List (String × String)
  folders : List String
  remotePages : List (String × RemotePage)
  apiCreateCount : Nat
  deriving DecidableEq, Repr

/-- Paths of the vault files. -/
def fileKeys (w : World) : List String := w.files.map Prod.fst

/-- Ids of the remote pages. -/
def remoteKeys (w : World) : List String := w.remotePages.map Prod.fst

/-- The `vault.getAbstractFileByPath` for a file path. -/
def getFile (w : World) (path : String) : Option String := jsGet w.files path

/-- The `vault.create(path, content)`. -/
def vaultCreate (env : Env) (w : World) (path content : String) :
    Except String Unit × World :=
  if env.createOk path then
    (.ok (), { w with files := w.files ++ [(path, content)] })
  else (.error ("Failed to create " ++ path), w)

/-- The `vault.modify(file, content)`. -/
def vaultModify (env : Env) (w : World) (path content : String) :
    Except String Unit × World :=
  if env.modifyOk path then
    (.ok (), { w with files := w.files.map (fun pc => if pc.1 = path then (pc.1, content) else pc) })
  else (.error ("Failed to modify " ++ path), w)

/-- The `notionApi.updatePage(pageId, properties, content)`. -/
def apiUpdatePage (env : Env) (w : World) (pageId : String)
    (props : List (String × NWriteProp)) (content : String) :
    Except String Unit × World :=
  if env.updatePageOk pageId then
    let updated := w.remotePages.map
      (fun pr => if pr.1 = pageId then (pr.1, ⟨props, some content⟩) else pr)
    (.ok (), { w with remotePages := updated })
  else (.error ("Failed to update page " ++ pageId), w)

/-- The `notionApi.createPage(databaseId, properties, content)`: returns the new
page id. -/
def apiCreatePage (env : Env) (w : World) (databaseId : String)
    (props : List (String × NWriteProp)) (content : String) :
    Except String String × World :=
  if env.createPageOk databaseId then
    (.ok (env.newPageId w.apiCreateCount),
      { w with
        remotePages := w.remotePages ++ [(env.newPageId w.apiCreateCount, ⟨props, some content⟩)]
        apiCreateCount := w.apiCreateCount + 1 })
  else (.error ("Failed to create page in " ++ databaseId), w)

/-- The `SyncManager.ensureFolderExists`. -/
def ensureFolderExists (env : Env) (path : String) (w : World) :
    Except String Unit × World :=
  if path ∈ w.folders then (.ok (), w)
  else if env.createFolderOk path then (.ok (), { w with folders := w.folders ++ [path] })
  else (.error ("Failed to create folder " ++ path), w)

/-- Truthy `note.notionId` (`if (note.notionId)`). -/
def noteIdTruthy (note : ObsidianNote) : Option FMValue :=
  match note.notionId with
  | some v => if v.truthy then some v else none
  | none => none

/-! ## Bidirectional-sync helpers (`createObsidianFromNotion`,
`createNotionFromObsidian`, `updateObsidianFromNotion`,
`updateNotionFromObsidian`) -/

/-- Target path and full rendered content for writing a Notion page into the
vault (shared by pull and bidirectional): converted front matter stamped with
`notionId` and `lastNotionSync`. -/
def notionPageFileContent (env : Env) (page : NotionPage) (config : SyncConfig) : String :=
  createMarkdownContent
    (jsSet
      (jsSet (convertNotionPropertiesToFrontmatter env page.properties config)
        "notionId" (.str page.id))
      "lastNotionSync" (.str (env.isoOfDateString page.lastModified)))
    page.content

/-- The vault path a page is written to. -/
def notionPageFilePath (page : NotionPage) (config : SyncConfig) : String :=
  config.obsidianFolder ++ "/" ++ getFileNameFromPage page config ++ ".md"

/-- The `SyncManager.createObsidianFromNotion`. -/
def createObsidianFromNotion (env : Env) (page : NotionPage) (config : SyncConfig)
    (w : World) : Except String Unit × World :=
  vaultCreate env w (notionPageFilePath page config) (notionPageFileContent env page config)

/-- The `SyncManager.updateObsidianFromNotion`: modify the target file when it
exists, else create it. -/
def updateObsidianFromNotion (env : Env) (page : NotionPage) (config : SyncConfig)
    (w : World) : Except String Unit × World :=
  let filePath := notionPageFilePath page config
  let content := notionPageFileContent env page config
  match getFile w filePath with
  | some _ => vaultModify env w filePath content
  | none => vaultCreate env w filePath content

/-- The `SyncManager.createNotionFromObsidian`: create the remote page, then write
the returned id (and `lastObsidianSync`) back into the local file when it
exists. -/
def createNotionFromObsidian (env : Env) (note : ObsidianNote) (config : SyncConfig)
    (w : World) : Except String Unit × World :=
  let props := convertFrontmatterToNotionProperties note.frontmatter config
  match apiCreatePage env w config.notionDatabaseId props note.content with
  | (.error e, w') => (.error e, w')
  | (.ok pageId, w') =>
    let fm := jsSet (jsSet note.frontmatter "notionId" (.str pageId))
      "lastObsidianSync" (.str env.nowIso)
    match getFile w' note.path with
    | some _ => vaultModify env w' note.path (createMarkdownContent fm note.content)
    | none => (.ok (), w')

/-- The `SyncManager.updateNotionFromObsidian`: no-op without a truthy link;
otherwise update the remote page and stamp `lastObsidianSync` locally. -/
def updateNotionFromObsidian (env : Env) (note : ObsidianNote) (config : SyncConfig)
    (w : World) : Except String Unit × World :=
  match noteIdTruthy note with
  | none => (.ok (), w)
  | some v =>
    let props := convertFrontmatterToNotionProperties note.frontmatter config
    match apiUpdatePage env w v.jsString props note.content with
    | (.error e, w') => (.error e, w')
    | (.ok _, w') =>
      let fm := jsSet note.frontmatter "lastObsidianSync" (.str env.nowIso)
      match getFile w' note.path with
      | some _ => vaultModify env w' note.path (createMarkdownContent fm note.content)
      | none => (.ok (), w')

/-! ## Conflict resolution (`SyncManager.resolveConflict`) -/

/-- The `SyncManager.resolveConflict`.  `policy` is the runtime value of
`settings.conflictResolution` (a string loaded from stored settings).  The
result string is one of `no-change`, `notion-wins`, `obsidian-wins`,
`conflict`. -/
def resolveConflict (env : Env) (policy : String) (notionPage : NotionPage)
    (obsidianNote : ObsidianNote) (config : SyncConfig) (w : World) :
    Except String String × World :=
  let notionModified := env.dateToEpoch notionPage.lastModified
  let obsidianModified := obsidianNote.lastModified
  let notionFrontmatter := convertNotionPropertiesToFrontmatter env notionPage.properties config
  let hasPropertyChanges := hasSignificantChanges notionFrontmatter obsidianNote.frontmatter config
  let hasContentChanges :=
    normalizeContent notionPage.content ≠ normalizeContent obsidianNote.content
  if !hasPropertyChanges && !(decide hasContentChanges) then (.ok "no-change", w)
  else if policy = "notion-wins" then
    match updateObsidianFromNotion env notionPage config w with
    | (.error e, w') => (.error e, w')
    | (.ok _, w') => (.ok "notion-wins", w')
  else if policy = "obsidian-wins" then
    match updateNotionFromObsidian env obsidianNote config w with
    | (.error e, w') => (.error e, w')
    | (.ok _, w') => (.ok "obsidian-wins", w')
  else if policy = "newer-wins" then
    if notionModified > obsidianModified then
      match updateObsidianFromNotion env notionPage config w with
      | (.error e, w') => (.error e, w')
      | (.ok _, w') => (.ok "notion-wins", w')
    else
      match updateNotionFromObsidian env obsidianNote config w with
      | (.error e, w') => (.error e, w')
      | (.ok _, w') => (.ok "obsidian-wins", w')
  else if policy = "manual" then (.ok "conflict", w)
  else (.ok "no-change", w)

/-! ## Pull (`SyncManager.syncNotionToObsidian`) -/

/-- Run summary of a pull. -/
structure Summary where
  created : Nat
  updated : Nat
  errors : Nat
  deriving DecidableEq, Repr

/-- Loop state of the pull over the fetched pages. -/
structure PullAcc where
  world : World
  created : Nat
  updated : Nat
  errors : Nat
  deriving DecidableEq, Repr

/-- One iteration of the pull loop: derive the target path, render the
content, then modify an existing file or create a new one; the whole body is
inside a per-page `try`/`catch`, so a rejected vault write only bumps the
error count. -/
def processPullPage (env : Env) (config : SyncConfig) (acc : PullAcc)
    (page : NotionPage) : PullAcc :=
  let filePath := notionPageFilePath page config
  let content := notionPageFileContent env page config
  match getFile acc.world filePath with
  | some _ =>
    match vaultModify env acc.world filePath content with
    | (.ok _, w') => { acc with world := w', updated := acc.updated + 1 }
    | (.error _, w') => { acc with world := w', errors := acc.errors + 1 }
  | none =>
    match vaultCreate env acc.world filePath content with
    | (.ok _, w') => { acc with world := w', created := acc.created + 1 }
    | (.error _, w') => { acc with world := w', errors := acc.errors + 1 }

/-- The `SyncManager.syncNotionToObsidian`: fetch the full snapshot, ensure the
target folder, then process every page. An empty snapshot returns early. -/
def syncNotionToObsidian (env : Env) (config : SyncConfig) (w : World) :
    Except String Summary × World :=
  match env.fetchPages config.notionDatabaseId with
  | .error e => (.error e, w)
  | .ok notionPages =>
    if notionPages.length = 0 then (.ok ⟨0, 0, 0⟩, w)
    else
      match ensureFolderExists env config.obsidianFolder w with
      | (.error e, w') => (.error e, w')
      | (.ok _, w') =>
        let acc := notionPages.foldl (processPullPage env config) ⟨w', 0, 0, 0⟩
        (.ok ⟨acc.created, acc.updated, acc.errors⟩, acc.world)

/-! ## Push (`SyncManager.syncObsidianToNotion`) -/

/-- The `SyncManager.getAllMarkdownFiles`: the `.md` files under the configured
folder, recursively. -/
def getAllMarkdownFiles (config : SyncConfig) (w : World) : List (String × String) :=
  w.files.filter (fun pc =>
    strStartsWith pc.1 (config.obsidianFolder ++ "/") && strEndsWith pc.1 ".md")

/-- One iteration of the push loop (per-file `try`/`catch`: any rejected call
is logged and the loop continues, keeping whatever writes already happened). -/
def processPushFile (env : Env) (config : SyncConfig) (w : World)
    (pc : String × String) : World :=
  let note := parseMarkdownFile pc.1 pc.2 (env.fileMtime pc.1)
  let props := convertFrontmatterToNotionProperties note.frontmatter config
  match noteIdTruthy note with
  | some v => (apiUpdatePage env w v.jsString props note.content).2
  | none =>
    match apiCreatePage env w config.notionDatabaseId props note.content with
    | (.error _, w') => w'
    | (.ok pageId, w') =>
      let fm := jsSet (jsSet note.frontmatter "notionId" (.str pageId))
        "lastObsidianSync" (.str env.nowIso)
      (vaultModify env w' pc.1 (createMarkdownContent fm note.content)).2

/-- The `SyncManager.syncObsidianToNotion`: enumerate the folder's markdown files
and push each one (update when linked, else create and write the id back). -/
def syncObsidianToNotion (env : Env) (config : SyncConfig) (w : World) :
    Except String Unit × World :=
  if config.obsidianFolder ∈ w.folders then
    (.ok (), (getAllMarkdownFiles config w).foldl (processPushFile env config) w)
  else (.error ("Folder " ++ config.obsidianFolder ++ " not found"), w)

/-! ## Bidirectional merge (`SyncManager.syncBidirectional`) -/

/-- The `obsidianMap.get(page.id)`: the note linked to the page id (a `Map` built
from a list keeps the *last* entry per key; only truthy string ids can match
the string key). -/
def findNoteFor (notes : List ObsidianNote) (pageId : String) : Option ObsidianNote :=
  (notes.filter (fun n =>
    match noteIdTruthy n with
    | some (.str s) => s = pageId
    | _ => false)).getLast?

/-- Loop over the fetched pages: create locally when unlinked, else resolve
the conflict.  No per-page `try`/`catch` here — a rejected write aborts the
whole bidirectional run. -/
def bidiPagesLoop (env : Env) (policy : String) (config : SyncConfig)
    (notes : List ObsidianNote) (w : World) :
    List NotionPage → Except String Unit × World
  | [] => (.ok (), w)
  | page :: rest =>
    match findNoteFor notes page.id with
    | none =>
      match createObsidianFromNotion env page config w with
      | (.error e, w') => (.error e, w')
      | (.ok _, w') => bidiPagesLoop env policy config notes w' rest
    | some note =>
      match resolveConflict env policy page note config w with
      | (.error e, w') => (.error e, w')
      | (.ok _, w') => bidiPagesLoop env policy config notes w' rest

/-- The `!note.notionId || !notionMap.has(note.notionId)`: unlinked, or linked to
an id the fetched snapshot does not contain (a non-string link never matches
the string-keyed `Map`). -/
def noteIsUnlinked (pageIds : List String) (note : ObsidianNote) : Bool :=
  match noteIdTruthy note with
  | none => true
  | some (.str s) => decide (s ∉ pageIds)
  | some _ => true

/-- Loop over the local notes: create remotely every note the fetched
snapshot does not know.  Also without a per-item `try`/`catch`. -/
def bidiNotesLoop (env : Env) (config : SyncConfig) (pageIds : List String)
    (w : World) : List ObsidianNote → Except String Unit × World
  | [] => (.ok (), w)
  | note :: rest =>
    if noteIsUnlinked pageIds note then
      match createNotionFromObsidian env note config w with
      | (.error e, w') => (.error e, w')
      | (.ok _, w') => bidiNotesLoop env config pageIds w' rest
    else bidiNotesLoop env config pageIds w rest

/-- The `SyncManager.syncBidirectional`: fetch both snapshots, then run the two
loops above. A missing folder just yields an empty local snapshot. -/
def syncBidirectional (env : Env) (policy : String) (config : SyncConfig)
    (w : World) : Except String Unit × World :=
  match env.fetchPages config.notionDatabaseId with
  | .error e => (.error e, w)
  | .ok notionPages =>
    let obsidianNotes :=
      if config.obsidianFolder ∈ w.folders then
        (getAllMarkdownFiles config w).map
          (fun pc => parseMarkdownFile pc.1 pc.2 (env.fileMtime pc.1))
      else []
    match bidiPagesLoop env policy config obsidianNotes w notionPages with
    | (.error e, w') => (.error e, w')
    | (.ok _, w') =>
      bidiNotesLoop env config (notionPages.map NotionPage.id) w' obsidianNotes

/-! ## Orchestration (`SyncManager.syncConfig`, `SyncManager.syncAll`) -/

/-- The wrapping applied by `syncConfig`'s `catch`:
`Failed to sync ${config.name}: ${error.message}`. -/
def syncFailMsg (config : SyncConfig) (e : String) : String :=
  "Failed to sync " ++ config.name ++ ": " ++ e

/-- Dispatch of the direction switch. -/
def runDirection (env : Env) (policy : String) (config : SyncConfig)
    (direction : SyncDirection) (w : World) : Except String Unit × World :=
  match direction with
  | .notionToObsidian =>
    let r := syncNotionToObsidian env config w
    (r.1.map (fun _ => ()), r.2)
  | .obsidianToNotion => syncObsidianToNotion env config w
  | .bidirectional => syncBidirectional env policy config w

/-- The `SyncManager.syncConfig`: validate, resolve the effective direction (empty
field mappings refuse local→remote and downgrade bidirectional to a pull),
run it, and stamp `lastSync` only on success.  Every error is re-thrown
wrapped in `Failed to sync ⟨name⟩: …`; the settings-save attempt after the
stamp swallows its own errors and mutates nothing modelled here. -/
def syncConfig (env : Env) (policy : String) (config : SyncConfig)
    (overrideDirection : Option SyncDirection) (w : World) :
    Except String Unit × SyncConfig × World :=
  let direction := overrideDirection.getD config.syncDirection
  if config.notionDatabaseId = "" then
    (.error (syncFailMsg config "No Notion database ID specified"), config, w)
  else if config.obsidianFolder = "" then
    (.error (syncFailMsg config "No Obsidian folder specified"), config, w)
  else if config.fieldMappings = [] ∧ direction = .obsidianToNotion then
    (.error (syncFailMsg config
      "Cannot sync from Obsidian to Notion without field mappings. Please configure field mappings first."),
      config, w)
  else
    let actualDirection :=
      if config.fieldMappings = [] ∧ direction = .bidirectional then
        SyncDirection.notionToObsidian
      else direction
    match runDirection env policy config actualDirection w with
    | (.error e, w') => (.error (syncFailMsg config e), config, w')
    | (.ok _, w') => (.ok (), { config with lastSync := env.nowEpoch }, w')

/-- The `SyncManager.syncAll`: run every enabled configuration in order; a failed
configuration is caught and the loop continues. (Config mutations are folded
into the returned list; the world threads through.) -/
def syncAll (env : Env) (policy : String) (configs : List SyncConfig)
    (direction : Option SyncDirection) (w : World) : List SyncConfig × World :=
  configs.foldl
    (fun acc config =>
      if config.enabled then
        let r := syncConfig env policy config direction acc.2
        (acc.1 ++ [r.2.1], r.2.2)
      else (acc.1 ++ [config], acc.2))
    ([], w)

/-! ## Concrete fixtures used by witnesses and counterexamples -/

/-- A concrete collaborator environment where every vault/API call succeeds,
`"rel-ok"` resolves to a title, `"rel-untitled"` to a title-less page and any
other relation lookup rejects; every date parses to epoch `5`. -/
def demoEnv : Env where
  lookupTitle := fun id =>
    if id = "rel-ok" then .success (some "Rel Title")
    else if id = "rel-untitled" then .success none
    else .failure
  fetchPages := fun _ => .ok []
  dateToEpoch := fun _ => 5
  isoOfDateString := fun s => s ++ "Z"
  nowEpoch := 99
  nowIso := "2025-01-01T00:00:00.000Z"
  fileMtime := fun _ => 5
  createOk := fun _ => true
  modifyOk := fun _ => true
  createFolderOk := fun _ => true
  updatePageOk := fun _ => true
  createPageOk := fun _ => true
  newPageId := fun _ => "np1"

/-- A configuration with no field mappings. -/
def demoConfig : SyncConfig where
  id := "cfg1"
  name := "Demo"
  obsidianFolder := "Notes"
  notionDatabaseId := "db1"
  syncDirection := .bidirectional
  syncMode := .manual
  fieldMappings := []
  lastSync := 0
  enabled := true

/-- A remote page whose body differs from `demoNote`'s. -/
def demoPage : NotionPage where
  id := "p1"
  properties := []
  content := "A"
  lastModified := "2025-01-01"

/-- An unlinked local note with local modification epoch `5` (equal to what
`demoEnv` parses every remote date to). -/
def demoNote : ObsidianNote where
  path := "Notes/p.md"
  frontmatter := []
  content := "B"
  lastModified := 5
  notionId := none

/-- A world holding one pre-existing file and one pre-existing remote page. -/
def demoWorld : World where
  files := [("Notes/p.md", "old")]
  folders := ["Notes"]
  remotePages := [("r1", ⟨[], none⟩)]
  apiCreateCount := 0

/-! ## C1 — `newer-wins` tie-breaking -/

/-- C1 (counterexample).  The claim says an exact timestamp tie under
`newer-wins` is resolved remote-wins (result `'notion-wins'`).  At this
concrete changed pair with equal epochs, `resolveConflict` returns
`'obsidian-wins'` instead: the strict `>` comparison sends ties into the
local-wins branch. -/
theorem newerWins_tie_claim_counterexample :
    demoEnv.dateToEpoch demoPage.lastModified = demoNote.lastModified ∧
    normalizeContent demoPage.content ≠ normalizeContent demoNote.content ∧
    (resolveConflict demoEnv "newer-wins" demoPage demoNote demoConfig demoWorld).1 ≠
      Except.ok "notion-wins" ∧
    (resolveConflict demoEnv "newer-wins" demoPage demoNote demoConfig demoWorld).1 =
      Except.ok "obsidian-wins" := by
  decide

/-- C1 (amended).  For every linked pair with property or content changes,
when the policy is `newer-wins` and the remote epoch equals the local epoch
exactly, `resolveConflict` treats the tie as local-wins: it runs
`updateNotionFromObsidian` (pushing the local document to the remote) and
returns `'obsidian-wins'`. -/
theorem resolveConflict_newerWins_tie_obsidianWins
    (env : Env) (page : NotionPage) (note : ObsidianNote) (config : SyncConfig) (w : World)
    (hchange : (hasSignificantChanges
        (convertNotionPropertiesToFrontmatter env page.properties config)
        note.frontmatter config
      || decide (normalizeContent page.content ≠ normalizeContent note.content)) = true)
    (htie : env.dateToEpoch page.lastModified = note.lastModified) :
    resolveConflict env "newer-wins" page note config w =
      ((updateNotionFromObsidian env note config w).1.map (fun _ => "obsidian-wins"),
        (updateNotionFromObsidian env note config w).2) := by
  have hcond : (!(hasSignificantChanges
        (convertNotionPropertiesToFrontmatter env page.properties config)
        note.frontmatter config)
      && !(decide (normalizeContent page.content ≠ normalizeContent note.content))) = false := by
    rw [← Bool.not_or, hchange, Bool.not_true]
  simp only [resolveConflict]
  rw [htie, hcond]
  simp only [Bool.false_eq_true, if_false]
  rw [if_neg (by decide : ¬(("newer-wins" : String) = "notion-wins")),
    if_neg (by decide : ¬(("newer-wins" : String) = "obsidian-wins")),
    if_pos trivial, if_neg (lt_irrefl note.lastModified)]
  rcases hu : updateNotionFromObsidian env note config w with ⟨r, w'⟩
  cases r <;> simp [hu, Except.map]

/-- C1 (witness for the amended theorem): at the concrete tied pair the
conclusion evaluates to a successful `'obsidian-wins'` with no world change
(the demo note is unlinked, so the remote update is a no-op). -/
theorem resolveConflict_newerWins_tie_obsidianWins_witness :
    resolveConflict demoEnv "newer-wins" demoPage demoNote demoConfig demoWorld =
      (Except.ok "obsidian-wins", demoWorld) := by
  have h := resolveConflict_newerWins_tie_obsidianWins demoEnv demoPage demoNote
    demoConfig demoWorld (by decide) (by decide)
  rw [h]; decide

/-! ## C9 — unrecognized conflict-resolution policy -/

/-- C9.  For a changed pair, a policy string that is none of `notion-wins`,
`obsidian-wins`, `newer-wins`, `manual` makes `resolveConflict` return
`'no-change'` and leave the world untouched (the `switch` falls to its
`default` branch, which performs no write). -/
theorem resolveConflict_unknownPolicy_noop
    (env : Env) (policy : String) (page : NotionPage) (note : ObsidianNote)
    (config : SyncConfig) (w : World)
    (hchange : (hasSignificantChanges
        (convertNotionPropertiesToFrontmatter env page.properties config)
        note.frontmatter config
      || decide (normalizeContent page.content ≠ normalizeContent note.content)) = true)
    (h1 : policy ≠ "notion-wins") (h2 : policy ≠ "obsidian-wins")
    (h3 : policy ≠ "newer-wins") (h4 : policy ≠ "manual") :
    resolveConflict env policy page note config w = (Except.ok "no-change", w) := by
  have hcond : (!(hasSignificantChanges
        (convertNotionPropertiesToFrontmatter env page.properties config)
        note.frontmatter config)
      && !(decide (normalizeContent page.content ≠ normalizeContent note.content))) = false := by
    rw [← Bool.not_or, hchange, Bool.not_true]
  simp only [resolveConflict]
  rw [hcond]
  simp only [Bool.false_eq_true, if_false]
  rw [if_neg h1, if_neg h2, if_neg h3, if_neg h4]

/-- C9 (witness): the spec's own synonym `remote-wins` is *not* handled by the
code; at a changed concrete pair it resolves to `'no-change'` with no write. -/
theorem resolveConflict_unknownPolicy_noop_witness :
    resolveConflict demoEnv "remote-wins" demoPage demoNote demoConfig demoWorld =
      (Except.ok "no-change", demoWorld) :=
  resolveConflict_unknownPolicy_noop demoEnv "remote-wins" demoPage demoNote
    demoConfig demoWorld (by decide) (by decide) (by decide) (by decide) (by decide)

/-! ## C10 — `lastSync` is stamped only on success -/

/-- C10.  Whenever `syncConfig` fails (missing database id, missing folder,
infeasible direction, or a propagated sync failure), the returned
configuration still carries the prior `lastSync` value: the stamp
`config.lastSync = Date.now()` sits after the directional sync inside the
`try` block. -/
theorem syncConfig_error_keeps_lastSync
    (env : Env) (policy : String) (config : SyncConfig) (d : Option SyncDirection)
    (w : World) (e : String)
    (h : (syncConfig env policy config d w).1 = Except.error e) :
    ((syncConfig env policy config d w).2.1).lastSync = config.lastSync := by
  rcases hr : syncConfig env policy config d w with ⟨r, config', w'⟩
  rw [hr] at h
  simp only at h
  simp only [syncConfig] at hr
  split at hr
  · cases hr; rfl
  · split at hr
    · cases hr; rfl
    · split at hr
      · cases hr; rfl
      · split at hr
        · cases hr; rfl
        · cases hr; cases h

/-- C10 (witness): a configuration without a database id errors out and keeps
its `lastSync` of `0`. -/
theorem syncConfig_error_keeps_lastSync_witness :
    ((syncConfig demoEnv "newer-wins" { demoConfig with notionDatabaseId := "" }
      none demoWorld).2.1).lastSync = 0 :=
  syncConfig_error_keeps_lastSync demoEnv "newer-wins"
    { demoConfig with notionDatabaseId := "" } none demoWorld
    (syncFailMsg { demoConfig with notionDatabaseId := "" }
      "No Notion database ID specified") (by decide)

/-! ## C2 — direction resolution with empty field mappings -/

/-- C2.  For a validated configuration with an empty field-mapping list:
local→remote is refused with an explicit configuration error before any
per-item work (the world is untouched), while bidirectional is silently
downgraded to a pull — the run is exactly the `syncNotionToObsidian` run
(only a warning is logged, which has no modelled effect). -/
theorem syncConfig_emptyMappings_direction
    (env : Env) (policy : String) (config : SyncConfig) (w : World)
    (hm : config.fieldMappings = [])
    (hdb : config.notionDatabaseId ≠ "") (hf : config.obsidianFolder ≠ "") :
    (config.syncDirection = SyncDirection.obsidianToNotion →
      syncConfig env policy config none w =
        (Except.error (syncFailMsg config
          "Cannot sync from Obsidian to Notion without field mappings. Please configure field mappings first."),
          config, w)) ∧
    (config.syncDirection = SyncDirection.bidirectional →
      syncConfig env policy config none w =
        (match syncNotionToObsidian env config w with
        | (Except.error e, w') => (Except.error (syncFailMsg config e), config, w')
        | (Except.ok _, w') => (Except.ok (), { config with lastSync := env.nowEpoch }, w'))) := by
  constructor
  · intro hdir
    simp only [syncConfig, Option.getD_none]
    rw [if_neg (by simp [hdb]), if_neg (by simp [hf]), if_pos ⟨hm, hdir⟩]
  · intro hdir
    simp only [syncConfig, Option.getD_none]
    rw [if_neg (by simp [hdb]), if_neg (by simp [hf]), if_neg (by simp [hdir]),
      if_pos ⟨hm, hdir⟩]
    simp only [runDirection]
    rcases hrun : syncNotionToObsidian env config w with ⟨r, w'⟩
    cases r <;> simp [hrun, Except.map]

/-- C2 (witness): with the demo environment (an empty remote database) the
local→remote direction errors and the bidirectional direction completes the
downgraded pull, stamping `lastSync`. -/
theorem syncConfig_emptyMappings_direction_witness :
    syncConfig demoEnv "newer-wins" { demoConfig with syncDirection := .obsidianToNotion }
        none demoWorld =
      (Except.error (syncFailMsg { demoConfig with syncDirection := .obsidianToNotion }
        "Cannot sync from Obsidian to Notion without field mappings. Please configure field mappings first."),
        { demoConfig with syncDirection := .obsidianToNotion }, demoWorld) ∧
    syncConfig demoEnv "newer-wins" demoConfig none demoWorld =
      (Except.ok (), { demoConfig with lastSync := 99 }, demoWorld) := by
  constructor
  · exact (syncConfig_emptyMappings_direction demoEnv "newer-wins"
      { demoConfig with syncDirection := .obsidianToNotion } demoWorld
      (by decide) (by decide) (by decide)).1 (by decide)
  · have h := (syncConfig_emptyMappings_direction demoEnv "newer-wins"
      demoConfig demoWorld (by decide) (by decide) (by decide)).2 (by decide)
    rw [h]; decide

/-! ## C6 — relation display text: per-item fallback, order preserved -/

/-- The relation loop distributes over concatenation: each entry is resolved
independently, so one entry's outcome never disturbs the others. -/
theorem relTextsLoop_append (env : Env) (xs ys : List (Option String)) :
    relTextsLoop env (xs ++ ys) = relTextsLoop env xs ++ relTextsLoop env ys := by
  induction xs with
  | nil => rfl
  | cons r rest ih =>
    cases r with
    | none => simpa [relTextsLoop] using ih
    | some id =>
      by_cases hid : id = "" <;> simp [relTextsLoop, hid, ih]

/-- C6.  The joined display text is the `", "`-join of the per-entry texts in
input order, and an entry whose lookup rejects (resp. resolves without a
title) contributes exactly the placeholder `"Unknown"` (resp. `"Untitled"`)
at its position, leaving the entries before and after it untouched. -/
theorem getRelationDisplayText_per_item (env : Env) (relations : List (Option String)) :
    getRelationDisplayText env relations = jsJoin ", " (relTextsLoop env relations)
    ∧ ∀ pre post id, id ≠ "" →
      (env.lookupTitle id = .failure →
        relTextsLoop env (pre ++ some id :: post) =
          relTextsLoop env pre ++ "Unknown" :: relTextsLoop env post)
      ∧ (env.lookupTitle id = .success none →
        relTextsLoop env (pre ++ some id :: post) =
          relTextsLoop env pre ++ "Untitled" :: relTextsLoop env post) := by
  constructor
  · by_cases h : relations = []
    · subst h; rfl
    · simp [getRelationDisplayText, h]
  · intro pre post id hid
    constructor <;> intro hl <;>
      rw [relTextsLoop_append] <;>
      simp [relTextsLoop, hid, relationItemText, hl]

/-- C6 (witness): a successful, a rejected and a title-less lookup produce
`"Rel Title, Unknown, Untitled"`, in input order. -/
theorem getRelationDisplayText_per_item_witness :
    getRelationDisplayText demoEnv [some "rel-ok", some "rel-bad", some "rel-untitled"] =
      "Rel Title, Unknown, Untitled" ∧
    relTextsLoop demoEnv ([some "rel-ok"] ++ some "rel-bad" :: [some "rel-untitled"]) =
      relTextsLoop demoEnv [some "rel-ok"] ++ "Unknown" :: relTextsLoop demoEnv [some "rel-untitled"] := by
  constructor
  · exact (getRelationDisplayText_per_item demoEnv
      [some "rel-ok", some "rel-bad", some "rel-untitled"]).1.trans (by decide)
  · exact ((getRelationDisplayText_per_item demoEnv []).2
      [some "rel-ok"] [some "rel-untitled"] "rel-bad" (by decide)).1 (by decide)

/-! ## C5 — auto-conversion emits every property -/

/-- The key just set is a key of the object. -/
theorem mem_keys_jsSet_self {α : Type} (m : List (String × α)) (k : String) (v : α) :
    k ∈ (jsSet m k v).map Prod.fst := by
  induction m with
  | nil => simp [jsSet]
  | cons kv rest ih =>
    by_cases h : kv.1 = k <;> simp [jsSet, h, ih]

/-- Assignment never removes a key. -/
theorem mem_keys_jsSet_of_mem {α : Type} (m : List (String × α)) (k : String) (v : α)
    (k' : String) (h : k' ∈ m.map Prod.fst) : k' ∈ (jsSet m k v).map Prod.fst := by
  induction m with
  | nil => simp at h
  | cons kv rest ih =>
    by_cases hk : kv.1 = k
    · simpa [jsSet, hk] using h
    · rcases (by simpa using h : k' = kv.1 ∨ k' ∈ rest.map Prod.fst) with h' | h' <;>
        simp [jsSet, hk, h', ih]

/-- Keys survive the auto-conversion fold. -/
theorem autoFold_keeps_keys (env : Env) (props : List (String × NProp)) :
    ∀ (acc : List (String × FMValue)) (k' : String), k' ∈ acc.map Prod.fst →
      k' ∈ ((props.foldl
        (fun fm kv => jsSet fm (fmKeyOfPropName kv.1) ((autoValue env kv.2).getD (.str "")))
        acc).map Prod.fst) := by
  induction props with
  | nil => intro acc k' h; simpa using h
  | cons kv rest ih =>
    intro acc k' h
    exact ih _ k' (mem_keys_jsSet_of_mem _ _ _ _ h)

/-- Every listed property's derived key is emitted by the auto-conversion
fold, whatever the accumulator. -/
theorem autoFold_emits (env : Env) (k : String) (v : NProp) :
    ∀ (props : List (String × NProp)), (k, v) ∈ props →
    ∀ (acc : List (String × FMValue)),
      fmKeyOfPropName k ∈ ((props.foldl
        (fun fm kv => jsSet fm (fmKeyOfPropName kv.1) ((autoValue env kv.2).getD (.str "")))
        acc).map Prod.fst) := by
  intro props
  induction props with
  | nil => intro h; cases h
  | cons kv rest ih =>
    intro hmem acc
    rcases List.mem_cons.mp hmem with h' | h'
    · subst h'
      simp only [List.foldl_cons]
      exact autoFold_keeps_keys env rest _ _ (mem_keys_jsSet_self _ _ _)
    · exact ih h' _

/-- C5.  With an empty field-mapping list, auto-conversion emits *every*
remote property: its lower-cased/underscored key is present in the resulting
front matter (even when the value was empty, in which case `""` is emitted);
and on the concrete record `{Name: title "Hello", Done: checkbox true}` it
produces exactly `{name: "Hello", done: true}`. -/
theorem convertAuto_emits_every_property :
    (∀ (env : Env) (props : List (String × NProp)) (config : SyncConfig),
      config.fieldMappings = [] → ∀ k v, (k, v) ∈ props →
        fmKeyOfPropName k ∈ (convertNotionPropertiesToFrontmatter env props config).map Prod.fst)
    ∧ (∀ (env : Env) (config : SyncConfig), config.fieldMappings = [] →
        convertNotionPropertiesToFrontmatter env
          [("Name", NProp.title ["Hello"]), ("Done", NProp.checkbox true)] config =
          [("name", FMValue.str "Hello"), ("done", FMValue.bool true)]) := by
  constructor
  · intro env props config hm k v hmem
    simp only [convertNotionPropertiesToFrontmatter, hm, if_true]
    exact autoFold_emits env k v props hmem []
  · intro env config hm
    simp only [convertNotionPropertiesToFrontmatter, hm, if_true]
    rfl

/-- C5 (witness): both keys of the concrete record are present. -/
theorem convertAuto_emits_every_property_witness :
    fmKeyOfPropName "Done" ∈ (convertNotionPropertiesToFrontmatter demoEnv
      [("Name", NProp.title ["Hello"]), ("Done", NProp.checkbox true)] demoConfig).map Prod.fst :=
  convertAuto_emits_every_property.1 demoEnv
    [("Name", NProp.title ["Hello"]), ("Done", NProp.checkbox true)] demoConfig
    (by decide) "Done" (NProp.checkbox true) (by decide)

/-! ## C7 — pull totals cover every record even under partial failure -/

/-- Each pull iteration increments exactly one of the three counters. -/
theorem processPullPage_sum (env : Env) (config : SyncConfig) (acc : PullAcc)
    (page : NotionPage) :
    (processPullPage env config acc page).created +
      (processPullPage env config acc page).updated +
      (processPullPage env config acc page).errors =
    acc.created + acc.updated + acc.errors + 1 := by
  simp only [processPullPage]
  split <;> split <;> simp <;> omega

/-- The pull loop adds exactly one to the counter total per page. -/
theorem foldl_processPullPage_sum (env : Env) (config : SyncConfig) :
    ∀ (pages : List NotionPage) (acc : PullAcc),
      (pages.foldl (processPullPage env config) acc).created +
        (pages.foldl (processPullPage env config) acc).updated +
        (pages.foldl (processPullPage env config) acc).errors =
      acc.created + acc.updated + acc.errors + pages.length := by
  intro pages
  induction pages with
  | nil => intro acc; simp
  | cons page rest ih =>
    intro acc
    have h := processPullPage_sum env config acc page
    simp only [List.foldl_cons, List.length_cons]
    rw [ih (processPullPage env config acc page)]
    omega

/-- C7.  When the collection fetch succeeds, a completed pull reports
`created + updated + errors` equal to the number of fetched records: every
per-record failure is caught and counted as an error while the loop
continues with the remaining records. -/
theorem syncNotionToObsidian_reports_all (env : Env) (config : SyncConfig) (w : World)
    (pages : List NotionPage) (s : Summary) (w' : World)
    (hfetch : env.fetchPages config.notionDatabaseId = Except.ok pages)
    (hrun : syncNotionToObsidian env config w = (Except.ok s, w')) :
    s.created + s.updated + s.errors = pages.length := by
  simp only [syncNotionToObsidian, hfetch] at hrun
  by_cases h0 : pages.length = 0
  · rw [if_pos h0] at hrun
    have h1 : Except.ok (Summary.mk 0 0 0) = Except.ok s := congrArg Prod.fst hrun
    have h2 : Summary.mk 0 0 0 = s := by injection h1
    subst h2
    simpa using h0.symm
  · rw [if_neg h0] at hrun
    rcases he : ensureFolderExists env config.obsidianFolder w with ⟨re, we⟩
    rw [he] at hrun
    cases re with
    | error e => simp at hrun
    | ok u =>
      simp only at hrun
      have h1 := congrArg Prod.fst hrun
      simp only at h1
      have h2 := by injection h1
      subst h2
      simpa using foldl_processPullPage_sum env config pages ⟨we, 0, 0, 0⟩

/-- A pull environment: one fetched page, `vault.create` always rejects. -/
def pullFailEnv : Env :=
  { demoEnv with fetchPages := fun _ => .ok [demoPage], createOk := fun _ => false }

/-- C7 (witness): with one fetched page whose file creation rejects, the run
still completes with totals `0 + 0 + 1` covering the single record. -/
theorem syncNotionToObsidian_reports_all_witness :
    (0 : Nat) + 0 + 1 = [demoPage].length :=
  syncNotionToObsidian_reports_all pullFailEnv demoConfig ⟨[], [], [], 0⟩
    [demoPage] ⟨0, 0, 1⟩ ⟨[], ["Notes"], [], 0⟩ (by decide) (by decide)

/-! ## C4 — filename derivation priority chain -/

/-- Is the property title-typed at all? -/
def NProp.isTitleType : NProp → Bool
  | .title _ => true
  | _ => false

/-- The priority chain as the spec states it: mapped title property, else any
title-typed property, else the property named `Name`, else the deterministic
fallback from the record identifier. -/
def fileNameChainSpec (page : NotionPage) (config : SyncConfig) : String :=
  (((fileNameStep1 page config).orElse fun _ => fileNameStep2 page).orElse
      fun _ => fileNameStep3 page).getD
    ("Notion-Page-" ++ page.id.take 8)

/-- A successful JS-object lookup is a binding of the object. -/
theorem jsGet_mem {α : Type} (m : List (String × α)) (k : String) (v : α)
    (h : jsGet m k = some v) : (k, v) ∈ m := by
  induction m with
  | nil => cases h
  | cons kv rest ih =>
    by_cases hk : kv.1 = k
    · rw [jsGet, if_pos hk] at h
      cases h
      have hh : (k, kv.2) = kv := by rw [← hk]
      rw [hh]
      exact List.mem_cons_self _ _
    · rw [jsGet, if_neg hk] at h
      exact List.mem_cons_of_mem _ (ih h)

/-- Usable title text only lives in a title-typed property. -/
theorem isUsableTitle_isTitleType (p : NProp) (h : isUsableTitle p = true) :
    p.isTitleType = true := by
  cases p <;> first | rfl | exact absurd h (by simp [isUsableTitle])

/-- The concrete record of the spec's test: no title-typed property,
identifier `abc12345xyz`. -/
def demoNoTitlePage : NotionPage where
  id := "abc12345xyz"
  properties := [("Status", NProp.select (some "Done"))]
  content := ""
  lastModified := "2025-01-01"

/-- C4.  `getFileNameFromPage` is exactly the four-step priority chain; a
record with no title-typed property always falls through to
`Notion-Page-` + first 8 identifier characters; and the spec's concrete
record with identifier `abc12345xyz` yields `Notion-Page-abc12345` under any
configuration. -/
theorem getFileNameFromPage_chain :
    (∀ (page : NotionPage) (config : SyncConfig),
      getFileNameFromPage page config = fileNameChainSpec page config)
    ∧ (∀ (page : NotionPage) (config : SyncConfig),
        (∀ kv, kv ∈ page.properties → kv.2.isTitleType = false) →
        getFileNameFromPage page config = "Notion-Page-" ++ page.id.take 8)
    ∧ (∀ config : SyncConfig,
        getFileNameFromPage demoNoTitlePage config = "Notion-Page-abc12345") := by
  have hchain : ∀ (page : NotionPage) (config : SyncConfig),
      getFileNameFromPage page config = fileNameChainSpec page config := by
    intro page config
    simp only [getFileNameFromPage, fileNameChainSpec]
    cases h1 : fileNameStep1 page config <;>
      cases h2 : fileNameStep2 page <;>
      cases h3 : fileNameStep3 page <;>
      simp [Option.orElse]
  have hnotitle : ∀ (page : NotionPage) (config : SyncConfig),
      (∀ kv, kv ∈ page.properties → kv.2.isTitleType = false) →
      getFileNameFromPage page config = "Notion-Page-" ++ page.id.take 8 := by
    intro page config h
    have husable : ∀ p : NProp, (∃ k, (k, p) ∈ page.properties) → isUsableTitle p = false := by
      intro p ⟨k, hk⟩
      by_contra hc
      have := isUsableTitle_isTitleType p (by revert hc; cases isUsableTitle p <;> simp)
      rw [h (k, p) hk] at this
      cases this
    have h1 : fileNameStep1 page config = none := by
      unfold fileNameStep1
      cases titleMappingOf config with
      | none => rfl
      | some m =>
        simp only
        cases hg : jsGet page.properties m.notionProperty with
        | none => rfl
        | some p =>
          simp [husable p ⟨m.notionProperty, jsGet_mem _ _ _ hg⟩]
    have h2 : fileNameStep2 page = none := by
      unfold fileNameStep2
      rw [List.find?_eq_none.mpr]
      · rfl
      · intro kv hkv
        simp [husable kv.2 ⟨kv.1, by simpa using hkv⟩]
    have h3 : fileNameStep3 page = none := by
      unfold fileNameStep3
      cases hg : jsGet page.properties "Name" with
      | none => rfl
      | some p =>
        simp [husable p ⟨"Name", jsGet_mem _ _ _ hg⟩]
    rw [getFileNameFromPage, h1, h2, h3]
  refine ⟨hchain, hnotitle, fun config => ?_⟩
  rw [hnotitle demoNoTitlePage config ?_]
  · rfl
  · intro kv hkv
    rcases List.mem_singleton.mp hkv with rfl
    rfl

/-- C4 (witness): the no-title fallback applied at a fresh concrete record. -/
theorem getFileNameFromPage_chain_witness :
    getFileNameFromPage ⟨"xyzid9876", [("N", NProp.checkbox true)], "", ""⟩ demoConfig =
      "Notion-Page-xyzid987" :=
  (getFileNameFromPage_chain.2.1 ⟨"xyzid9876", [("N", NProp.checkbox true)], "", ""⟩
    demoConfig (by decide)).trans (by decide)

/-! ## C8 — no sync run ever deletes a file or a remote record

The engine writes through five primitives only; each preserves the set of
existing file paths and remote page ids, and hence so does every composite
and every direction of `syncConfig`. -/

/-- Every file path and remote page id of `w` still exists in `w'`. -/
def Preserves (w w' : World) : Prop :=
  (∀ p, p ∈ fileKeys w → p ∈ fileKeys w') ∧
  (∀ i, i ∈ remoteKeys w → i ∈ remoteKeys w')

theorem preserves_refl (w : World) : Preserves w w :=
  ⟨fun _ h => h, fun _ h => h⟩

theorem preserves_trans {w1 w2 w3 : World}
    (h1 : Preserves w1 w2) (h2 : Preserves w2 w3) : Preserves w1 w3 :=
  ⟨fun p h => h2.1 p (h1.1 p h), fun i h => h2.2 i (h1.2 i h)⟩

theorem vaultCreate_preserves (env : Env) (w : World) (path content : String) :
    Preserves w (vaultCreate env w path content).2 := by
  unfold vaultCreate
  split
  · refine ⟨fun q h => ?_, fun i h => h⟩
    simp only [fileKeys, List.map_append, List.mem_append]
    exact Or.inl h
  · exact preserves_refl w

theorem vaultModify_preserves (env : Env) (w : World) (path content : String) :
    Preserves w (vaultModify env w path content).2 := by
  unfold vaultModify
  split
  · refine ⟨fun q h => ?_, fun i h => h⟩
    have hkeys : ((w.files.map (fun pc => if pc.1 = path then (pc.1, content) else pc)).map
        Prod.fst) = w.files.map Prod.fst := by
      rw [List.map_map]
      apply List.map_congr_left
      intro a _
      by_cases hh : a.1 = path <;> simp [hh]
    simpa only [fileKeys, hkeys] using h
  · exact preserves_refl w

theorem apiUpdatePage_preserves (env : Env) (w : World) (pageId : String)
    (props : List (String × NWriteProp)) (content : String) :
    Preserves w (apiUpdatePage env w pageId props content).2 := by
  unfold apiUpdatePage
  split
  · refine ⟨fun q h => h, fun i h => ?_⟩
    have hkeys : ((w.remotePages.map
        (fun pr => if pr.1 = pageId then (pr.1, RemotePage.mk props (some content)) else pr)).map
        Prod.fst) = w.remotePages.map Prod.fst := by
      rw [List.map_map]
      apply List.map_congr_left
      intro a _
      by_cases hh : a.1 = pageId <;> simp [hh]
    simpa only [remoteKeys, hkeys] using h
  · exact preserves_refl w

theorem apiCreatePage_preserves (env : Env) (w : World) (databaseId : String)
    (props : List (String × NWriteProp)) (content : String) :
    Preserves w (apiCreatePage env w databaseId props content).2 := by
  unfold apiCreatePage
  split
  · refine ⟨fun q h => h, fun i h => ?_⟩
    simp only [remoteKeys, List.map_append, List.mem_append]
    exact Or.inl h
  · exact preserves_refl w

theorem ensureFolderExists_preserves (env : Env) (path : String) (w : World) :
    Preserves w (ensureFolderExists env path w).2 := by
  unfold ensureFolderExists
  split
  · exact preserves_refl w
  · split
    · exact ⟨fun q h => h, fun i h => h⟩
    · exact preserves_refl w

theorem createObsidianFromNotion_preserves (env : Env) (page : NotionPage)
    (config : SyncConfig) (w : World) :
    Preserves w (createObsidianFromNotion env page config w).2 :=
  vaultCreate_preserves env w _ _

theorem updateObsidianFromNotion_preserves (env : Env) (page : NotionPage)
    (config : SyncConfig) (w : World) :
    Preserves w (updateObsidianFromNotion env page config w).2 := by
  simp only [updateObsidianFromNotion]
  cases hg : getFile w (notionPageFilePath page config)
  · exact vaultCreate_preserves env w _ _
  · exact vaultModify_preserves env w _ _

theorem createNotionFromObsidian_preserves (env : Env) (note : ObsidianNote)
    (config : SyncConfig) (w : World) :
    Preserves w (createNotionFromObsidian env note config w).2 := by
  simp only [createNotionFromObsidian]
  rcases hc : apiCreatePage env w config.notionDatabaseId
      (convertFrontmatterToNotionProperties note.frontmatter config) note.content with ⟨r, w'⟩
  have hp := apiCreatePage_preserves env w config.notionDatabaseId
    (convertFrontmatterToNotionProperties note.frontmatter config) note.content
  rw [hc] at hp
  cases r with
  | error e => exact hp
  | ok pageId =>
    simp only
    cases hg : getFile w' note.path
    · exact hp
    · exact preserves_trans hp (vaultModify_preserves env w' _ _)

theorem updateNotionFromObsidian_preserves (env : Env) (note : ObsidianNote)
    (config : SyncConfig) (w : World) :
    Preserves w (updateNotionFromObsidian env note config w).2 := by
  simp only [updateNotionFromObsidian]
  cases noteIdTruthy note with
  | none => exact preserves_refl w
  | some v =>
    simp only
    rcases hu : apiUpdatePage env w v.jsString
        (convertFrontmatterToNotionProperties note.frontmatter config) note.content with ⟨r, w'⟩
    have hp := apiUpdatePage_preserves env w v.jsString
      (convertFrontmatterToNotionProperties note.frontmatter config) note.content
    rw [hu] at hp
    cases r with
    | error e => exact hp
    | ok u =>
      simp only
      cases hg : getFile w' note.path
      · exact hp
      · exact preserves_trans hp (vaultModify_preserves env w' _ _)

theorem resolveConflict_preserves (env : Env) (policy : String) (page : NotionPage)
    (note : ObsidianNote) (config : SyncConfig) (w : World) :
    Preserves w (resolveConflict env policy page note config w).2 := by
  simp only [resolveConflict]
  split
  · exact preserves_refl w
  split
  · rcases h : updateObsidianFromNotion env page config w with ⟨r, w'⟩
    have hp := updateObsidianFromNotion_preserves env page config w
    rw [h] at hp
    cases r <;> exact hp
  split
  · rcases h : updateNotionFromObsidian env note config w with ⟨r, w'⟩
    have hp := updateNotionFromObsidian_preserves env note config w
    rw [h] at hp
    cases r <;> exact hp
  split
  · split
    · rcases h : updateObsidianFromNotion env page config w with ⟨r, w'⟩
      have hp := updateObsidianFromNotion_preserves env page config w
      rw [h] at hp
      cases r <;> exact hp
    · rcases h : updateNotionFromObsidian env note config w with ⟨r, w'⟩
      have hp := updateNotionFromObsidian_preserves env note config w
      rw [h] at hp
      cases r <;> exact hp
  split
  · exact preserves_refl w
  · exact preserves_refl w

theorem processPullPage_preserves (env : Env) (config : SyncConfig) (acc : PullAcc)
    (page : NotionPage) :
    Preserves acc.world (processPullPage env config acc page).world := by
  simp only [processPullPage]
  split
  · rcases h : vaultModify env acc.world (notionPageFilePath page config)
        (notionPageFileContent env page config) with ⟨r, w'⟩
    have hp := vaultModify_preserves env acc.world (notionPageFilePath page config)
      (notionPageFileContent env page config)
    rw [h] at hp
    cases r <;> exact hp
  · rcases h : vaultCreate env acc.world (notionPageFilePath page config)
        (notionPageFileContent env page config) with ⟨r, w'⟩
    have hp := vaultCreate_preserves env acc.world (notionPageFilePath page config)
      (notionPageFileContent env page config)
    rw [h] at hp
    cases r <;> exact hp

/-- Folding a world-preserving step preserves the world. -/
theorem foldl_preserves {α A : Type} (proj : A → World) (step : A → α → A)
    (h : ∀ a x, Preserves (proj a) (proj (step a x))) :
    ∀ (l : List α) (a : A), Preserves (proj a) (proj (l.foldl step a)) := by
  intro l
  induction l with
  | nil => intro a; exact preserves_refl _
  | cons x xs ih => intro a; exact preserves_trans (h a x) (ih (step a x))

theorem syncNotionToObsidian_preserves (env : Env) (config : SyncConfig) (w : World) :
    Preserves w (syncNotionToObsidian env config w).2 := by
  unfold syncNotionToObsidian
  cases env.fetchPages config.notionDatabaseId with
  | error e => exact preserves_refl w
  | ok notionPages =>
    simp only
    split
    · exact preserves_refl w
    · rcases he : ensureFolderExists env config.obsidianFolder w with ⟨re, we⟩
      have hpe := ensureFolderExists_preserves env config.obsidianFolder w
      rw [he] at hpe
      cases re with
      | error e => exact hpe
      | ok u =>
        simp only
        exact preserves_trans hpe
          (foldl_preserves PullAcc.world (processPullPage env config)
            (fun a x => processPullPage_preserves env config a x) notionPages ⟨we, 0, 0, 0⟩)

theorem processPushFile_preserves (env : Env) (config : SyncConfig) (w : World)
    (pc : String × String) :
    Preserves w (processPushFile env config w pc) := by
  simp only [processPushFile]
  cases noteIdTruthy (parseMarkdownFile pc.1 pc.2 (env.fileMtime pc.1)) with
  | some v => exact apiUpdatePage_preserves env w _ _ _
  | none =>
    simp only
    rcases hc : apiCreatePage env w config.notionDatabaseId
        (convertFrontmatterToNotionProperties
          (parseMarkdownFile pc.1 pc.2 (env.fileMtime pc.1)).frontmatter config)
        (parseMarkdownFile pc.1 pc.2 (env.fileMtime pc.1)).content with ⟨r, w'⟩
    have hp := apiCreatePage_preserves env w config.notionDatabaseId
      (convertFrontmatterToNotionProperties
        (parseMarkdownFile pc.1 pc.2 (env.fileMtime pc.1)).frontmatter config)
      (parseMarkdownFile pc.1 pc.2 (env.fileMtime pc.1)).content
    rw [hc] at hp
    cases r with
    | error e => exact hp
    | ok pageId => exact preserves_trans hp (vaultModify_preserves env w' _ _)

theorem syncObsidianToNotion_preserves (env : Env) (config : SyncConfig) (w : World) :
    Preserves w (syncObsidianToNotion env config w).2 := by
  unfold syncObsidianToNotion
  split
  · exact foldl_preserves id (processPushFile env config)
      (fun a x => processPushFile_preserves env config a x) (getAllMarkdownFiles config w) w
  · exact preserves_refl w

theorem bidiPagesLoop_preserves (env : Env) (policy : String) (config : SyncConfig)
    (notes : List ObsidianNote) :
    ∀ (pages : List NotionPage) (w : World),
      Preserves w (bidiPagesLoop env policy config notes w pages).2 := by
  intro pages
  induction pages with
  | nil => intro w; exact preserves_refl w
  | cons page rest ih =>
    intro w
    simp only [bidiPagesLoop]
    cases findNoteFor notes page.id with
    | none =>
      rcases hc : createObsidianFromNotion env page config w with ⟨r, w'⟩
      have hp := createObsidianFromNotion_preserves env page config w
      rw [hc] at hp
      cases r with
      | error e => exact hp
      | ok u => exact preserves_trans hp (ih w')
    | some note =>
      simp only
      rcases hc : resolveConflict env policy page note config w with ⟨r, w'⟩
      have hp := resolveConflict_preserves env policy page note config w
      rw [hc] at hp
      cases r with
      | error e => exact hp
      | ok u => exact preserves_trans hp (ih w')

theorem bidiNotesLoop_preserves (env : Env) (config : SyncConfig) (pageIds : List String) :
    ∀ (notes : List ObsidianNote) (w : World),
      Preserves w (bidiNotesLoop env config pageIds w notes).2 := by
  intro notes
  induction notes with
  | nil => intro w; exact preserves_refl w
  | cons note rest ih =>
    intro w
    simp only [bidiNotesLoop]
    split
    · rcases hc : createNotionFromObsidian env note config w with ⟨r, w'⟩
      have hp := createNotionFromObsidian_preserves env note config w
      rw [hc] at hp
      cases r with
      | error e => exact hp
      | ok u => exact preserves_trans hp (ih w')
    · exact ih w

theorem syncBidirectional_preserves (env : Env) (policy : String) (config : SyncConfig)
    (w : World) : Preserves w (syncBidirectional env policy config w).2 := by
  unfold syncBidirectional
  cases env.fetchPages config.notionDatabaseId with
  | error e => exact preserves_refl w
  | ok notionPages =>
    simp only
    rcases hl : bidiPagesLoop env policy config
        (if config.obsidianFolder ∈ w.folders then
          List.map (fun pc => parseMarkdownFile pc.1 pc.2 (env.fileMtime pc.1))
            (getAllMarkdownFiles config w)
        else []) w notionPages with ⟨r, w'⟩
    rw [hl]
    have hp := bidiPagesLoop_preserves env policy config
      (if config.obsidianFolder ∈ w.folders then
        List.map (fun pc => parseMarkdownFile pc.1 pc.2 (env.fileMtime pc.1))
          (getAllMarkdownFiles config w)
      else []) notionPages w
    rw [hl] at hp
    cases r with
    | error e => exact hp
    | ok u => exact preserves_trans hp (bidiNotesLoop_preserves env config _ _ w')

theorem runDirection_preserves (env : Env) (policy : String) (config : SyncConfig)
    (direction : SyncDirection) (w : World) :
    Preserves w (runDirection env policy config direction w).2 := by
  cases direction with
  | notionToObsidian => exact syncNotionToObsidian_preserves env config w
  | obsidianToNotion => exact syncObsidianToNotion_preserves env config w
  | bidirectional => exact syncBidirectional_preserves env policy config w

/-- C8.  No run of `syncConfig` — whatever its direction, override, policy or
outcome — removes an existing local file path or an existing remote page id:
the engine's only write primitives create or modify, never delete. -/
theorem syncConfig_never_deletes (env : Env) (policy : String) (config : SyncConfig)
    (d : Option SyncDirection) (w : World) :
    (∀ p, p ∈ fileKeys w → p ∈ fileKeys (syncConfig env policy config d w).2.2) ∧
    (∀ i, i ∈ remoteKeys w → i ∈ remoteKeys (syncConfig env policy config d w).2.2) := by
  simp only [syncConfig]
  split
  · exact preserves_refl w
  split
  · exact preserves_refl w
  split
  · exact preserves_refl w
  rcases hr : runDirection env policy config
      (if config.fieldMappings = [] ∧ (d.getD config.syncDirection) = SyncDirection.bidirectional
        then SyncDirection.notionToObsidian else d.getD config.syncDirection) w with ⟨r, w'⟩
  have hp := runDirection_preserves env policy config
    (if config.fieldMappings = [] ∧ (d.getD config.syncDirection) = SyncDirection.bidirectional
      then SyncDirection.notionToObsidian else d.getD config.syncDirection) w
  rw [hr] at hp
  cases r <;> exact hp

/-- C8 (witness): the pre-existing file and remote page of `demoWorld` survive
a bidirectional run. -/
theorem syncConfig_never_deletes_witness :
    "Notes/p.md" ∈ fileKeys ((syncConfig demoEnv "newer-wins" demoConfig none demoWorld).2.2) ∧
    "r1" ∈ remoteKeys ((syncConfig demoEnv "newer-wins" demoConfig none demoWorld).2.2) :=
  ⟨(syncConfig_never_deletes demoEnv "newer-wins" demoConfig none demoWorld).1
      "Notes/p.md" (by decide),
    (syncConfig_never_deletes demoEnv "newer-wins" demoConfig none demoWorld).2
      "r1" (by decide)⟩

/-! ## C3 — serialization round trip

C3 as stated is false: the serializer ends the front-matter block with
`---\n\n` while the parser's regex consumes only through the first `---\n`,
so the parsed body carries one extra leading newline (see the counterexample
below).  The amended round trip is proved for well-formed front matter. -/

/-- A front-matter key that survives the line-based format: non-empty, no
colon (the parser splits on the first colon), no newline, and stable under
trimming. -/
abbrev GoodKey (k : String) : Prop :=
  k ≠ "" ∧ ':' ∉ k.toList ∧ '\n' ∉ k.toList ∧ trimChars k.toList = k.toList

/-- A front-matter value that survives the format: strings must not span
lines; list elements must not contain the separators the parser splits on;
lists must be non-empty (the parser reads `[]` back as `[""]`). -/
abbrev GoodVal : FMValue → Prop
  | .str s => '\n' ∉ s.toList
  | .num _ => True
  | .bool _ => True
  | .list xs => xs ≠ [] ∧ ∀ x ∈ xs, '\n' ∉ x.toList ∧ ',' ∉ x.toList

instance (v : FMValue) : Decidable (GoodVal v) := by
  cases v with
  | str s => exact inferInstanceAs (Decidable ('\n' ∉ s.toList))
  | num n => exact inferInstanceAs (Decidable True)
  | bool b => exact inferInstanceAs (Decidable True)
  | list xs =>
    exact inferInstanceAs (Decidable (xs ≠ [] ∧ ∀ x ∈ xs, '\n' ∉ x.toList ∧ ',' ∉ x.toList))

/-- C3 (counterexample).  Parsing the serialization of `{a: "x"}` with body
`"b"` returns the front matter unchanged but the body `"\nb"`, not `"b"`:
the round trip as claimed fails on the body component. -/
theorem parse_serialize_claim_counterexample :
    parseFrontmatterAndBody (createMarkdownContent [("a", FMValue.str "x")] "b") ≠
      ([("a", FMValue.str "x")], "b") ∧
    parseFrontmatterAndBody (createMarkdownContent [("a", FMValue.str "x")] "b") =
      ([("a", FMValue.str "x")], "\nb") := by
  decide

/-! ### Character and trim helper lemmas -/

theorem not_ws_of_isDigit (c : Char) (h : c.isDigit = true) : c.isWhitespace = false := by
  by_contra hc
  have hws : c.isWhitespace = true := by revert hc; cases c.isWhitespace <;> simp
  simp only [Char.isWhitespace, Bool.or_eq_true, decide_eq_true_eq] at hws
  rcases hws with ((h1 | h1) | h1) | h1 <;> subst h1 <;> exact absurd h (by decide)

theorem trimCharsLeft_of_head (l : List Char)
    (h : ∀ c, l.head? = some c → c.isWhitespace = false) : trimCharsLeft l = l := by
  cases l with
  | nil => rfl
  | cons c t => simp [trimCharsLeft, h c rfl]

theorem trimChars_stable (l : List Char)
    (h1 : ∀ c, l.head? = some c → c.isWhitespace = false)
    (h2 : ∀ c, l.getLast? = some c → c.isWhitespace = false) : trimChars l = l := by
  unfold trimChars
  rw [trimCharsLeft_of_head l.reverse (by simpa using h2), List.reverse_reverse]
  exact trimCharsLeft_of_head l h1

theorem trimChars_space_cons (l : List Char) (hne : l ≠ [])
    (h1 : ∀ c, l.head? = some c → c.isWhitespace = false)
    (h2 : ∀ c, l.getLast? = some c → c.isWhitespace = false) :
    trimChars (' ' :: l) = l := by
  unfold trimChars
  have hrev : (' ' :: l).reverse = l.reverse ++ [' '] := by simp
  rw [hrev, trimCharsLeft_of_head (l.reverse ++ [' ']) ?_]
  · rw [List.reverse_append, List.reverse_reverse]
    simp only [List.reverse_cons, List.reverse_nil, List.nil_append, List.singleton_append]
    show trimCharsLeft (' ' :: l) = l
    rw [trimCharsLeft]
    simp only [if_pos (by decide : (' ' : Char).isWhitespace = true)]
    exact trimCharsLeft_of_head l h1
  · intro c hc
    rw [List.head?_append] at hc
    cases hh : l.reverse.head? with
    | some c' =>
      rw [hh] at hc
      simp only [Option.or_some] at hc
      cases hc
      exact h2 c (by rw [← List.head?_reverse, hh])
    | none =>
      rw [List.head?_reverse] at hh
      rcases List.getLast?_eq_none_iff.mp hh
      exact absurd rfl hne

/-! ### First-occurrence split lemmas (the lazy regex group) -/

theorem firstSplitChars_self (pat ys : List Char) (hne : pat ≠ []) :
    firstSplitChars pat (pat ++ ys) = some ([], ys) := by
  cases pat with
  | nil => exact absurd rfl hne
  | cons c pt =>
    rw [List.cons_append, firstSplitChars,
      if_pos (by rw [← List.cons_append]; exact List.isPrefixOf_iff_prefix.mpr (List.prefix_append _ _))]
    rw [← List.cons_append, List.drop_left]

theorem firstSplitChars_shift (pt l m : List Char) (h : '\n' ∉ l) :
    firstSplitChars ('\n' :: pt) (l ++ m) =
      (firstSplitChars ('\n' :: pt) m).map (fun pr => (l ++ pr.1, pr.2)) := by
  induction l with
  | nil =>
    simp only [List.nil_append]
    cases firstSplitChars ('\n' :: pt) m with
    | none => rfl
    | some pr => cases pr; rfl
  | cons c t ih =>
    have hc : c ≠ '\n' := fun hh => h (hh ▸ List.mem_cons_self c t)
    rw [List.cons_append, firstSplitChars, if_neg ?_]
    · rw [ih (fun hm => h (List.mem_cons_of_mem c hm))]
      cases firstSplitChars ('\n' :: pt) m with
      | none => rfl
      | some pr => cases pr; rfl
    · intro hpre
      rcases List.isPrefixOf_iff_prefix.mp hpre with ⟨u, hu⟩
      rw [List.cons_append] at hu
      injection hu with h1 _
      exact hc h1.symm

theorem marker_not_prefix_of_line (l t : List Char) (hcolon : ':' ∈ l) (hnl : '\n' ∉ l) :
    ¬ (['-', '-', '-', '\n'].isPrefixOf (l ++ t) = true) := by
  intro hpre
  rcases List.isPrefixOf_iff_prefix.mp hpre with ⟨u, hu⟩
  rcases l with _ | ⟨a, _ | ⟨b, _ | ⟨c, _ | ⟨d, l'⟩⟩⟩⟩
  · cases hcolon
  · simp only [List.singleton_append, List.cons_append, List.cons.injEq] at hu
    obtain ⟨rfl, -⟩ := hu
    simp at hcolon
  · simp only [List.cons_append, List.cons.injEq] at hu
    obtain ⟨rfl, rfl, -⟩ := hu
    simp at hcolon
  · simp only [List.cons_append, List.cons.injEq] at hu
    obtain ⟨rfl, rfl, rfl, -⟩ := hu
    simp at hcolon
  · simp only [List.cons_append, List.cons.injEq] at hu
    obtain ⟨rfl, rfl, rfl, rfl, -⟩ := hu
    exact hnl (by simp)

/-- The `key: value` lines joined with newlines.  (Proof artifact: the char-level
image of the serializer's block body.) -/
def joinNl : List (List Char) → List Char
  | [] => []
  | [l] => l
  | l :: l2 :: rest => l ++ '\n' :: joinNl (l2 :: rest)

theorem joinNl_cons_eq_append (x : List Char) (xs : List (List Char)) :
    ∃ t, joinNl (x :: xs) = x ++ t := by
  cases xs with
  | nil => exact ⟨[], by simp [joinNl]⟩
  | cons y ys => exact ⟨'\n' :: joinNl (y :: ys), rfl⟩

/-- The central scan lemma: over a block of newline-free lines that each
contain a colon, the lazy search for `\n---\n` finds exactly the closing
marker appended after the block. -/
theorem firstSplitChars_joinNl (lines : List (List Char)) (ys : List Char)
    (hgood : ∀ l ∈ lines, '\n' ∉ l ∧ ':' ∈ l) (hne : lines ≠ []) :
    firstSplitChars ['\n', '-', '-', '-', '\n']
        (joinNl lines ++ ['\n', '-', '-', '-', '\n'] ++ ys) =
      some (joinNl lines, ys) := by
  induction lines with
  | nil => exact absurd rfl hne
  | cons l rest ih =>
    cases rest with
    | nil =>
      show firstSplitChars _ (l ++ _ ++ _) = _
      rw [List.append_assoc, firstSplitChars_shift _ l _ (hgood l (by simp)).1,
        firstSplitChars_self _ _ (by simp)]
      simp [joinNl]
    | cons l2 rest2 =>
      have hl : '\n' ∉ l := (hgood l (by simp)).1
      have hjoin : joinNl (l :: l2 :: rest2) = l ++ '\n' :: joinNl (l2 :: rest2) := rfl
      rw [hjoin, List.append_assoc, List.append_assoc,
        firstSplitChars_shift _ l _ hl]
      have hrec : firstSplitChars ['\n', '-', '-', '-', '\n']
          ('\n' :: (joinNl (l2 :: rest2) ++ (['\n', '-', '-', '-', '\n'] ++ ys))) =
          some ('\n' :: joinNl (l2 :: rest2), ys) := by
        rw [firstSplitChars, if_neg ?_]
        · have := ih (fun x hx => hgood x (List.mem_cons_of_mem l hx)) (by simp)
          rw [List.append_assoc] at this
          rw [this]
        · intro hpre
          simp only [List.isPrefixOf, beq_self_eq_true, Bool.true_and] at hpre
          rcases joinNl_cons_eq_append l2 rest2 with ⟨t, ht⟩
          rw [ht, List.append_assoc] at hpre
          exact marker_not_prefix_of_line l2 _ (hgood l2 (by simp)).2
            (hgood l2 (by simp)).1 hpre
      rw [List.cons_append, hrec]
      rfl

/-! ### Line and comma splitting -/

theorem splitOnChar_ne_nil (sep : Char) (l : List Char) : splitOnChar sep l ≠ [] := by
  cases l with
  | nil => simp [splitOnChar]
  | cons c rest =>
    rw [splitOnChar]
    by_cases h : c = sep
    · simp [h]
    · simp only [if_neg h]
      cases splitOnChar sep rest <;> simp

theorem splitOnChar_of_not_mem (sep : Char) (l : List Char) (h : sep ∉ l) :
    splitOnChar sep l = [l] := by
  induction l with
  | nil => rfl
  | cons c rest ih =>
    have hc : c ≠ sep := fun hh => h (hh ▸ List.mem_cons_self c rest)
    rw [splitOnChar]
    simp only [if_neg hc, ih (fun hm => h (List.mem_cons_of_mem c hm))]

theorem splitOnChar_append_of_not_mem (sep : Char) (l m : List Char) (h : sep ∉ l)
    (hd : List Char) (tl : List (List Char)) (hm : splitOnChar sep m = hd :: tl) :
    splitOnChar sep (l ++ m) = (l ++ hd) :: tl := by
  induction l with
  | nil => simpa using hm
  | cons c rest ih =>
    have hc : c ≠ sep := fun hh => h (hh ▸ List.mem_cons_self c rest)
    rw [List.cons_append, splitOnChar]
    simp only [if_neg hc, ih (fun hmem => h (List.mem_cons_of_mem c hmem))]
    rfl

theorem splitOnChar_cons_sep (sep : Char) (m : List Char) :
    splitOnChar sep (sep :: m) = [] :: splitOnChar sep m := by
  rw [splitOnChar]
  simp

/-- Splitting the newline-joined lines recovers the lines. -/
theorem splitOnChar_joinNl (lines : List (List Char))
    (hnl : ∀ l ∈ lines, '\n' ∉ l) (hne : lines ≠ []) :
    splitOnChar '\n' (joinNl lines) = lines := by
  induction lines with
  | nil => exact absurd rfl hne
  | cons l rest ih =>
    cases rest with
    | nil => exact splitOnChar_of_not_mem '\n' l (hnl l (by simp))
    | cons l2 rest2 =>
      have hrec := ih (fun x hx => hnl x (List.mem_cons_of_mem l hx)) (by simp)
      show splitOnChar '\n' (l ++ '\n' :: joinNl (l2 :: rest2)) = _
      rw [splitOnChar_append_of_not_mem '\n' l _ (hnl l (by simp))
        [] (splitOnChar '\n' (joinNl (l2 :: rest2)))
        (splitOnChar_cons_sep '\n' (joinNl (l2 :: rest2)))]
      rw [hrec, List.append_nil]

/-! ### Decimal printing/parsing round trip -/

theorem natDigitsRev_eq_digits : ∀ (fuel n : Nat), n ≤ fuel →
    natDigitsRev fuel n = Nat.digits 10 n := by
  intro fuel
  induction fuel with
  | zero =>
    intro n hn
    interval_cases n
    simp [natDigitsRev]
  | succ fuel ih =>
    intro n hn
    by_cases h0 : n = 0
    · subst h0; simp [natDigitsRev]
    · rw [natDigitsRev, if_neg h0,
        Nat.digits_def' (by norm_num : 1 < 10) (Nat.pos_of_ne_zero h0),
        ih (n / 10) ?_]
      have := Nat.div_lt_self (Nat.pos_of_ne_zero h0) (by norm_num : 1 < 10)
      omega

theorem natDigitsRev_lt_ten (fuel : Nat) : ∀ (n d : Nat), d ∈ natDigitsRev fuel n → d < 10 := by
  induction fuel with
  | zero => intro n d h; cases h
  | succ fuel ih =>
    intro n d h
    rw [natDigitsRev] at h
    by_cases h0 : n = 0
    · rw [if_pos h0] at h; cases h
    · rw [if_neg h0] at h
      rcases List.mem_cons.mp h with rfl | h'
      · exact Nat.mod_lt n (by norm_num)
      · exact ih (n / 10) d h'

theorem digit_char_isDigit (d : Nat) (hd : d < 10) :
    (Char.ofNat (48 + d)).isDigit = true := by
  interval_cases d <;> decide

theorem digitVal_digit_char (d : Nat) (hd : d < 10) :
    digitVal (Char.ofNat (48 + d)) = d := by
  interval_cases d <;> decide

theorem natRepr_all_digits (n : Nat) :
    ∀ c ∈ (natRepr n).toList, c.isDigit = true := by
  intro c hc
  unfold natRepr at hc
  by_cases h0 : n = 0
  · rw [if_pos h0] at hc
    rcases List.mem_singleton.mp hc with rfl
    decide
  · rw [if_neg h0, List.toList_asString] at hc
    unfold natChars at hc
    rw [List.mem_reverse] at hc
    rcases List.mem_map.mp hc with ⟨d, hd, rfl⟩
    exact digit_char_isDigit d (natDigitsRev_lt_ten n n d hd)

theorem natRepr_ne_nil (n : Nat) : (natRepr n).toList ≠ [] := by
  unfold natRepr
  by_cases h0 : n = 0
  · rw [if_pos h0]; decide
  · rw [if_neg h0, List.toList_asString]
    unfold natChars
    simp only [ne_eq, List.reverse_eq_nil_iff, List.map_eq_nil_iff]
    rw [natDigitsRev_eq_digits n n (Nat.le_refl n)]
    exact Nat.digits_ne_nil_iff_ne_zero.mpr h0

theorem foldl_digitVal (l : List Char) : ∀ (acc : Nat),
    l.foldl (fun a c => a * 10 + digitVal c) acc =
      acc * 10 ^ l.length + Nat.ofDigits 10 ((l.map digitVal).reverse) := by
  induction l with
  | nil => intro acc; simp [Nat.ofDigits]
  | cons c t ih =>
    intro acc
    rw [List.foldl_cons, ih (acc * 10 + digitVal c)]
    simp only [List.map_cons, List.reverse_cons, List.length_cons,
      Nat.ofDigits_append, Nat.ofDigits_singleton, List.length_reverse, List.length_map]
    ring

theorem charsToNat?_natRepr (n : Nat) : charsToNat? (natRepr n).toList = some n := by
  by_cases h0 : n = 0
  · subst h0; decide
  · rw [charsToNat?, if_pos ⟨natRepr_ne_nil n, List.all_eq_true.mpr
      (fun c hc => natRepr_all_digits n c hc)⟩]
    congr 1
    rw [foldl_digitVal _ 0, Nat.zero_mul, Nat.zero_add]
    have hmap : ((natRepr n).toList.map digitVal).reverse = Nat.digits 10 n := by
      unfold natRepr
      rw [if_neg h0, List.toList_asString]
      unfold natChars
      rw [← List.map_reverse, List.reverse_reverse, List.map_map]
      rw [natDigitsRev_eq_digits n n (Nat.le_refl n)]
      have hcongr : ∀ d ∈ Nat.digits 10 n, (digitVal ∘ fun d => Char.ofNat (48 + d)) d = id d :=
        fun d hd => digitVal_digit_char d (Nat.digits_lt_base (by norm_num) hd)
      rw [List.map_congr_left hcongr, List.map_id]
    rw [hmap, Nat.ofDigits_digits]

theorem natRepr_head_not_minus (n : Nat) : (natRepr n).toList.head? ≠ some '-' := by
  intro h
  have hc : '-' ∈ (natRepr n).toList := by
    cases hl : (natRepr n).toList with
    | nil => rw [hl] at h; cases h
    | cons c t =>
      rw [hl] at h
      simp only [List.head?_cons, Option.some.injEq] at h
      rw [← h]
      exact List.mem_cons_self _ _
  exact absurd (natRepr_all_digits n '-' hc) (by decide)

theorem jsNumber?_intRepr (n : Int) : jsNumber? (intRepr n).toList = some n := by
  cases n with
  | ofNat m =>
    show jsNumber? (natRepr m).toList = some (Int.ofNat m)
    rw [jsNumber?, if_neg (natRepr_ne_nil m), if_neg (natRepr_head_not_minus m)]
    rw [charsToNat?_natRepr m]
    rfl
  | negSucc m =>
    have htl : (intRepr (Int.negSucc m)).toList = '-' :: (natRepr (m + 1)).toList := by
      show (("-" ++ natRepr (m + 1)).toList) = _
      rw [show ("-" ++ natRepr (m + 1)).toList = "-".toList ++ (natRepr (m + 1)).toList
        from String.data_append _ _]
      rfl
    rw [htl, jsNumber?, if_neg (by simp),
      if_pos (show ('-' :: (natRepr (m + 1)).toList).head? = some '-' from rfl)]
    simp only [List.tail_cons, charsToNat?_natRepr (m + 1), Option.map_some]
    rw [Int.negSucc_coe m]
    simp

/-! ### Per-value rendering facts -/

/-- Char-level image of `jsJoin ", "` (proof artifact). -/
def interComma : List (List Char) → List Char
  | [] => []
  | [l] => l
  | l :: l2 :: rest => l ++ ',' :: ' ' :: interComma (l2 :: rest)

theorem strToList_append (a b : String) : (a ++ b).toList = a.toList ++ b.toList :=
  String.data_append a b

theorem mem_of_head?_eq {α : Type} {l : List α} {c : α} (h : l.head? = some c) : c ∈ l := by
  cases l with
  | nil => cases h
  | cons a t =>
    simp only [List.head?_cons, Option.some.injEq] at h
    rw [← h]
    exact List.mem_cons_self _ _

theorem mem_of_getLast?_eq {α : Type} {l : List α} {c : α} (h : l.getLast? = some c) : c ∈ l := by
  rw [← List.head?_reverse] at h
  exact List.mem_reverse.mp (mem_of_head?_eq h)

theorem intRepr_all (n : Int) :
    ∀ c ∈ (intRepr n).toList, c.isDigit = true ∨ c = '-' := by
  cases n with
  | ofNat m => exact fun c hc => Or.inl (natRepr_all_digits m c hc)
  | negSucc m =>
    intro c hc
    have htl : (intRepr (Int.negSucc m)).toList = '-' :: (natRepr (m + 1)).toList := by
      show (("-" ++ natRepr (m + 1)).toList) = _
      rw [strToList_append]
      rfl
    rw [htl] at hc
    rcases List.mem_cons.mp hc with rfl | hc'
    · exact Or.inr rfl
    · exact Or.inl (natRepr_all_digits (m + 1) c hc')

theorem intRepr_ne_nil (n : Int) : (intRepr n).toList ≠ [] := by
  cases n with
  | ofNat m => exact natRepr_ne_nil m
  | negSucc m =>
    show (("-" ++ natRepr (m + 1)).toList) ≠ []
    rw [strToList_append]
    simp

theorem not_ws_of_digit_or_minus (c : Char) (h : c.isDigit = true ∨ c = '-') :
    c.isWhitespace = false := by
  rcases h with h | rfl
  · exact not_ws_of_isDigit c h
  · decide

/-- The characters of the inner comma-space join come from the pieces or are
the separators. -/
theorem mem_interComma (c : Char) : ∀ (qs : List (List Char)), c ∈ interComma qs →
    (∃ q ∈ qs, c ∈ q) ∨ c = ',' ∨ c = ' ' := by
  intro qs
  induction qs with
  | nil => intro h; cases h
  | cons q rest ih =>
    cases rest with
    | nil => intro h; exact Or.inl ⟨q, by simp, h⟩
    | cons q2 rest2 =>
      intro h
      rcases List.mem_append.mp h with h' | h'
      · exact Or.inl ⟨q, by simp, h'⟩
      · rcases List.mem_cons.mp h' with rfl | h''
        · exact Or.inr (Or.inl rfl)
        · rcases List.mem_cons.mp h'' with rfl | h3
          · exact Or.inr (Or.inr rfl)
          · rcases ih h3 with ⟨q', hq', hc⟩ | h4
            · exact Or.inl ⟨q', List.mem_cons_of_mem _ hq', hc⟩
            · exact Or.inr h4

theorem stripQuotes_quote (x : List Char) : stripQuotes ('"' :: (x ++ ['"'])) = x := by
  have hlen : 2 ≤ ('"' :: (x ++ ['"'])).length := by simp
  have hlast : ('"' :: (x ++ ['"'])).getLast? = some '"' := by
    rw [show ('"' :: (x ++ ['"'])) = ('"' :: x) ++ ['"'] by simp]
    exact List.getLast?_concat _
  unfold stripQuotes
  rw [if_pos ⟨hlen, rfl, hlast⟩, List.drop_one, List.tail_cons, List.dropLast_concat]

/-- Quoted element as a char list. -/
theorem quote_toList (x : String) :
    ("\"" ++ x ++ "\"").toList = '"' :: (x.toList ++ ['"']) := by
  rw [strToList_append, strToList_append]
  rfl

theorem jsJoin_comma_toList (ls : List String) :
    (jsJoin ", " ls).toList = interComma (ls.map String.toList) := by
  induction ls with
  | nil => rfl
  | cons x rest ih =>
    cases rest with
    | nil => rfl
    | cons y rest2 =>
      show (x ++ ", " ++ jsJoin ", " (y :: rest2)).toList = _
      rw [strToList_append, strToList_append, ih, List.append_assoc]
      rfl

theorem render_list_toList (xs : List String) :
    (renderFMValue (.list xs)).toList =
      '[' :: (interComma (xs.map (fun x => '"' :: (x.toList ++ ['"']))) ++ [']']) := by
  show ("[" ++ jsJoin ", " (xs.map (fun v => "\"" ++ v ++ "\"")) ++ "]").toList = _
  rw [strToList_append, strToList_append, jsJoin_comma_toList, List.map_map]
  have : (String.toList ∘ fun v => "\"" ++ v ++ "\"") = fun x => '"' :: (x.toList ++ ['"']) := by
    funext x
    exact quote_toList x
  rw [this, List.append_assoc]
  rfl

theorem splitOnChar_interComma (q : List Char) (qrest : List (List Char))
    (hq : ',' ∉ q) (hrest : ∀ r ∈ qrest, ',' ∉ r) :
    splitOnChar ',' (interComma (q :: qrest)) = q :: qrest.map (fun r => ' ' :: r) := by
  induction qrest generalizing q with
  | nil => exact splitOnChar_of_not_mem ',' q hq
  | cons r rest ih =>
    show splitOnChar ',' (q ++ ',' :: ' ' :: interComma (r :: rest)) = _
    have hr : splitOnChar ',' (interComma (r :: rest)) = r :: rest.map (fun r => ' ' :: r) :=
      ih r (hrest r (by simp)) (fun x hx => hrest x (by simp [hx]))
    have h2 : splitOnChar ',' ([' '] ++ interComma (r :: rest)) =
        (' ' :: r) :: rest.map (fun r => ' ' :: r) := by
      rw [splitOnChar_append_of_not_mem ',' [' '] _ (by decide) r (rest.map (fun r => ' ' :: r)) hr]
      rfl
    have h3 : splitOnChar ',' (',' :: (' ' :: interComma (r :: rest))) =
        [] :: (' ' :: r) :: rest.map (fun r => ' ' :: r) := by
      rw [splitOnChar_cons_sep]
      rw [show (' ' :: interComma (r :: rest)) = [' '] ++ interComma (r :: rest) from rfl, h2]
    rw [splitOnChar_append_of_not_mem ',' q _ hq [] ((' ' :: r) :: rest.map (fun r => ' ' :: r)) h3,
      List.append_nil]
    rfl

/-- The rendered value is non-empty, whitespace-stable at its ends, free of
newlines, and parses back to the value. -/
theorem renderFMValue_facts (v : FMValue) (hv : GoodVal v) :
    (renderFMValue v).toList ≠ [] ∧
    (∀ c, (renderFMValue v).toList.head? = some c → c.isWhitespace = false) ∧
    (∀ c, (renderFMValue v).toList.getLast? = some c → c.isWhitespace = false) ∧
    '\n' ∉ (renderFMValue v).toList ∧
    parseFMValue (renderFMValue v).toList = v := by
  cases v with
  | str s =>
    have htl : (renderFMValue (.str s)).toList = '"' :: (s.toList ++ ['"']) := quote_toList s
    have hlast : ('"' :: (s.toList ++ ['"'])).getLast? = some '"' := by
      rw [show ('"' :: (s.toList ++ ['"'])) = ('"' :: s.toList) ++ ['"'] from by simp]
      exact List.getLast?_concat _
    rw [htl]
    refine ⟨by simp, ?_, ?_, ?_, ?_⟩
    · intro c hc
      have : c = '"' := by simpa using hc.symm
      subst this; decide
    · intro c hc
      rw [hlast] at hc
      have : c = '"' := by simpa using hc.symm
      subst this; decide
    · intro hm
      rcases List.mem_cons.mp hm with he | hm'
      · exact absurd he (by decide)
      rcases List.mem_append.mp hm' with hin | he
      · exact absurd hin hv
      · exact absurd (List.mem_singleton.mp he) (by decide)
    · rw [parseFMValue, if_pos ⟨rfl, hlast⟩, List.drop_one, List.tail_cons,
        List.dropLast_concat, String.asString_toList]
  | num n =>
    have hall := intRepr_all n
    have hne := intRepr_ne_nil n
    refine ⟨hne, ?_, ?_, ?_, ?_⟩
    · intro c hc
      exact not_ws_of_digit_or_minus c (hall c (mem_of_head?_eq hc))
    · intro c hc
      exact not_ws_of_digit_or_minus c (hall c (mem_of_getLast?_eq hc))
    · intro hm
      rcases hall _ hm with h | h <;> exact absurd h (by decide)
    · have h1 : ¬((intRepr n).toList.head? = some '"' ∧
          (intRepr n).toList.getLast? = some '"') := by
        rintro ⟨hh, -⟩
        rcases hall _ (mem_of_head?_eq hh) with h | h <;> exact absurd h (by decide)
      have h2 : ¬((intRepr n).toList.head? = some '[' ∧
          (intRepr n).toList.getLast? = some ']') := by
        rintro ⟨hh, -⟩
        rcases hall _ (mem_of_head?_eq hh) with h | h <;> exact absurd h (by decide)
      have h3 : (intRepr n).toList ≠ "true".toList := by
        intro he
        have hu : 'u' ∈ (intRepr n).toList := by rw [he]; decide
        rcases hall _ hu with h | h <;> exact absurd h (by decide)
      have h4 : (intRepr n).toList ≠ "false".toList := by
        intro he
        have ha : 'a' ∈ (intRepr n).toList := by rw [he]; decide
        rcases hall _ ha with h | h <;> exact absurd h (by decide)
      show parseFMValue (intRepr n).toList = FMValue.num n
      rw [parseFMValue, if_neg h1, if_neg h2, if_neg h3, if_neg h4, jsNumber?_intRepr n]
  | bool b =>
    cases b with
    | true =>
      refine ⟨by decide, ?_, ?_, by decide, by decide⟩
      · intro c hc
        rw [show (renderFMValue (FMValue.bool true)).toList.head? = some 't' from by decide] at hc
        injection hc.symm with h
        subst h; decide
      · intro c hc
        rw [show (renderFMValue (FMValue.bool true)).toList.getLast? = some 'e' from by decide] at hc
        injection hc.symm with h
        subst h; decide
    | false =>
      refine ⟨by decide, ?_, ?_, by decide, by decide⟩
      · intro c hc
        rw [show (renderFMValue (FMValue.bool false)).toList.head? = some 'f' from by decide] at hc
        injection hc.symm with h
        subst h; decide
      · intro c hc
        rw [show (renderFMValue (FMValue.bool false)).toList.getLast? = some 'e' from by decide] at hc
        injection hc.symm with h
        subst h; decide
  | list xs =>
    obtain ⟨hxs, helem⟩ := hv
    have htl := render_list_toList xs
    have hlast : ('[' :: (interComma (xs.map (fun x => '"' :: (x.toList ++ ['"']))) ++ [']'])).getLast?
        = some ']' := by
      rw [show ('[' :: (interComma (xs.map (fun x => '"' :: (x.toList ++ ['"']))) ++ [']'])) =
        ('[' :: interComma (xs.map (fun x => '"' :: (x.toList ++ ['"'])))) ++ [']'] from by simp]
      exact List.getLast?_concat _
    rw [htl]
    refine ⟨by simp, ?_, ?_, ?_, ?_⟩
    · intro c hc
      have : c = '[' := by simpa using hc.symm
      subst this; decide
    · intro c hc
      rw [hlast] at hc
      have : c = ']' := by simpa using hc.symm
      subst this; decide
    · intro hm
      rcases List.mem_cons.mp hm with he | hm'
      · exact absurd he (by decide)
      rcases List.mem_append.mp hm' with hic | he
      · rcases mem_interComma '\n' _ hic with ⟨q, hq, hcq⟩ | h | h
        · rcases List.mem_map.mp hq with ⟨x, hx, rfl⟩
          rcases List.mem_cons.mp hcq with he | hcq'
          · exact absurd he (by decide)
          rcases List.mem_append.mp hcq' with hin | he
          · exact absurd hin (helem x hx).1
          · exact absurd (List.mem_singleton.mp he) (by decide)
        · exact absurd h (by decide)
        · exact absurd h (by decide)
      · exact absurd (List.mem_singleton.mp he) (by decide)
    · have h1 : ¬(('[' :: (interComma (xs.map (fun x => '"' :: (x.toList ++ ['"']))) ++ [']'])).head?
          = some '"' ∧ ('[' :: (interComma (xs.map (fun x => '"' :: (x.toList ++ ['"']))) ++ [']'])).getLast?
          = some '"') := by
        rintro ⟨hh, -⟩
        exact absurd (by simpa using hh.symm : '"' = '[') (by decide)
      rw [parseFMValue, if_neg h1, if_pos ⟨rfl, hlast⟩, List.drop_one, List.tail_cons,
        List.dropLast_concat]
      rcases xs with - | ⟨x, xrest⟩
      · exact absurd rfl hxs
      have hnocomma : ∀ x' ∈ x :: xrest, ',' ∉ ('"' :: (x'.toList ++ ['"'])) := by
        intro x' hx' hmem
        rcases List.mem_cons.mp hmem with he | hmem'
        · exact absurd he (by decide)
        rcases List.mem_append.mp hmem' with hin | he
        · exact absurd hin (helem x' hx').2
        · exact absurd (List.mem_singleton.mp he) (by decide)
      rw [List.map_cons, splitOnChar_interComma _ _ (hnocomma x (by simp))
        (fun r hr => by
          rcases List.mem_map.mp hr with ⟨x', hx', rfl⟩
          exact hnocomma x' (List.mem_cons_of_mem _ hx'))]
      have hclean : ∀ x' ∈ x :: xrest,
          (stripQuotes (trimChars ('"' :: (x'.toList ++ ['"'])))).asString = x' := by
        intro x' hx'
        rw [trimChars_stable _ (by intro c hc; have : c = '"' := by simpa using hc.symm
                                   subst this; decide)
            (by intro c hc
                rw [show ('"' :: (x'.toList ++ ['"'])) = ('"' :: x'.toList) ++ ['"'] from by simp,
                  List.getLast?_concat] at hc
                have : c = '"' := by simpa using hc.symm
                subst this; decide),
          stripQuotes_quote, String.asString_toList]
      have hcleansp : ∀ x' ∈ xrest,
          (stripQuotes (trimChars (' ' :: ('"' :: (x'.toList ++ ['"']))))).asString = x' := by
        intro x' hx'
        rw [trimChars_space_cons _ (by simp)
            (by intro c hc; have : c = '"' := by simpa using hc.symm
                subst this; decide)
            (by intro c hc
                rw [show ('"' :: (x'.toList ++ ['"'])) = ('"' :: x'.toList) ++ ['"'] from by simp,
                  List.getLast?_concat] at hc
                have : c = '"' := by simpa using hc.symm
                subst this; decide),
          stripQuotes_quote, String.asString_toList]
      simp only [List.map_cons, List.map_map]
      rw [hclean x (by simp)]
      congr 1
      have hcomp : ∀ x' ∈ xrest,
          ((fun e => (stripQuotes (trimChars e)).asString) ∘ (fun r => ' ' :: r) ∘
            fun x => '"' :: (x.toList ++ ['"'])) x' = id x' := by
        intro x' hx'
        exact hcleansp x' hx'
      rw [List.map_congr_left hcomp, List.map_id]

/-! ### Line-level round trip and the full assembly -/

theorem idxOfChar_append_colon (l m : List Char) (h : ':' ∉ l) :
    idxOfChar ':' (l ++ ':' :: m) = some l.length := by
  induction l with
  | nil => simp [idxOfChar]
  | cons c t ih =>
    have hc : c ≠ ':' := fun hh => h (hh ▸ List.mem_cons_self c t)
    rw [List.cons_append, idxOfChar, if_neg hc,
      ih (fun hm => h (List.mem_cons_of_mem c hm))]
    rfl

theorem toList_eq_nil_iff (k : String) : k.toList = [] ↔ k = "" := by
  constructor
  · intro h
    exact String.toList_inj.mp (by rw [h]; rfl)
  · intro h
    rw [h]
    rfl

/-- Parsing the serialized line `k: v` assigns exactly `(k, v)`. -/
theorem parseYamlLine_line (acc : List (String × FMValue)) (k : String) (v : FMValue)
    (hk : GoodKey k) (hv : GoodVal v) :
    parseYamlLine acc (k.toList ++ ':' :: ' ' :: (renderFMValue v).toList) = jsSet acc k v := by
  obtain ⟨hk0, hkc, hknl, hktrim⟩ := hk
  obtain ⟨hne, hhead, hlast, hnl, hparse⟩ := renderFMValue_facts v hv
  rw [parseYamlLine, idxOfChar_append_colon _ _ hkc]
  have hkpos : 0 < k.toList.length := by
    cases hl : k.toList with
    | nil => exact absurd ((toList_eq_nil_iff k).mp hl) hk0
    | cons c t => simp
  show (if 0 < k.toList.length then
      jsSet acc
        (trimChars ((k.toList ++ ':' :: ' ' :: (renderFMValue v).toList).take k.toList.length)).asString
        (parseFMValue (trimChars
          ((k.toList ++ ':' :: ' ' :: (renderFMValue v).toList).drop (k.toList.length + 1))))
    else acc) = jsSet acc k v
  rw [if_pos hkpos, List.take_left, hktrim, String.asString_toList]
  have hdrop : (k.toList ++ ':' :: ' ' :: (renderFMValue v).toList).drop (k.toList.length + 1) =
      ' ' :: (renderFMValue v).toList := by
    rw [show k.toList ++ ':' :: ' ' :: (renderFMValue v).toList =
      (k.toList ++ [':']) ++ (' ' :: (renderFMValue v).toList) from by simp]
    rw [List.drop_left' (by simp)]
  rw [hdrop, trimChars_space_cons _ hne hhead hlast, hparse]

theorem jsSet_eq_append {α : Type} (m : List (String × α)) (k : String) (v : α)
    (h : k ∉ m.map Prod.fst) : jsSet m k v = m ++ [(k, v)] := by
  induction m with
  | nil => rfl
  | cons kv rest ih =>
    have hk : kv.1 ≠ k := by
      intro hh
      exact h (by simp [hh])
    rw [jsSet]
    simp only [if_neg hk, List.cons_append, List.cons.injEq, true_and]
    exact ih (fun hm => h (by simp [hm]))

/-- The serialized `key: value` lines of a front-matter map, as char lists. -/
def fmLines (fm : List (String × FMValue)) : List (List Char) :=
  fm.map (fun kv => kv.1.toList ++ ':' :: ' ' :: (renderFMValue kv.2).toList)

theorem foldl_parseYamlLine_fmLines :
    ∀ (fm acc : List (String × FMValue)),
    (fm.map Prod.fst).Nodup →
    (∀ kv ∈ fm, GoodKey kv.1 ∧ GoodVal kv.2) →
    (∀ x ∈ acc.map Prod.fst, x ∉ fm.map Prod.fst) →
    (fmLines fm).foldl parseYamlLine acc = acc ++ fm := by
  intro fm
  induction fm with
  | nil =>
    intro acc _ _ _
    simp [fmLines]
  | cons kv rest ih =>
    intro acc hnodup hgood hdisj
    obtain ⟨k, v⟩ := kv
    have hgd := hgood (k, v) (by simp)
    simp only [fmLines, List.map_cons, List.foldl_cons]
    rw [parseYamlLine_line acc k v hgd.1 hgd.2]
    have hknotacc : k ∉ acc.map Prod.fst := by
      intro hmem
      exact hdisj k hmem (by simp)
    rw [jsSet_eq_append acc k v hknotacc]
    have hnodup2 : (k :: rest.map Prod.fst).Nodup := by simpa using hnodup
    have hnodup' : (rest.map Prod.fst).Nodup := (List.nodup_cons.mp hnodup2).2
    have hheadnot : k ∉ rest.map Prod.fst := (List.nodup_cons.mp hnodup2).1
    have hdisj' : ∀ x ∈ (acc ++ [(k, v)]).map Prod.fst, x ∉ rest.map Prod.fst := by
      intro x hx
      rcases List.mem_append.mp (by simpa using hx : x ∈ acc.map Prod.fst ++ [k]) with hx' | hx'
      · intro hr
        exact hdisj x hx' (by simp [hr])
      · rcases List.mem_singleton.mp hx' with rfl
        exact hheadnot
    have := ih (acc ++ [(k, v)]) hnodup'
      (fun kv' hkv' => hgood kv' (List.mem_cons_of_mem _ hkv')) hdisj'
    simp only [fmLines] at this
    rw [this, List.append_assoc]
    rfl

theorem yamlLines_toList (fm : List (String × FMValue)) (hne : fm ≠ []) :
    (yamlLines fm).toList = joinNl (fmLines fm) ++ ['\n'] := by
  induction fm with
  | nil => exact absurd rfl hne
  | cons kv rest ih =>
    obtain ⟨k, v⟩ := kv
    show (k ++ ": " ++ renderFMValue v ++ "\n" ++ yamlLines rest).toList = _
    cases rest with
    | nil =>
      rw [strToList_append, strToList_append, strToList_append, strToList_append]
      show k.toList ++ [':', ' '] ++ (renderFMValue v).toList ++ ['\n'] ++ [] = _
      simp [fmLines, joinNl, List.append_assoc]
    | cons kv2 rest2 =>
      rw [strToList_append, strToList_append, strToList_append, strToList_append,
        ih (by simp)]
      show k.toList ++ [':', ' '] ++ (renderFMValue v).toList ++ ['\n'] ++
        (joinNl (fmLines (kv2 :: rest2)) ++ ['\n']) = _
      have hjoin : joinNl (fmLines ((k, v) :: kv2 :: rest2)) =
          (k.toList ++ ':' :: ' ' :: (renderFMValue v).toList) ++
            '\n' :: joinNl (fmLines (kv2 :: rest2)) := rfl
      rw [hjoin]
      simp [List.append_assoc]

/-- C3 (amended).  For non-empty front matter with distinct well-formed keys
and well-formed values, parsing the serialized document returns the same
front-matter map, and the body prefixed by exactly one newline: the
serializer's blank line after the closing `---` is not consumed by the
parser's regex. -/
theorem parse_createMarkdownContent_roundTrip
    (fm : List (String × FMValue)) (body : String)
    (hne : fm ≠ [])
    (hnodup : (fm.map Prod.fst).Nodup)
    (hgood : ∀ kv ∈ fm, GoodKey kv.1 ∧ GoodVal kv.2) :
    parseFrontmatterAndBody (createMarkdownContent fm body) = (fm, "\n" ++ body) := by
  have hlinesgood : ∀ l ∈ fmLines fm, '\n' ∉ l ∧ ':' ∈ l := by
    intro l hl
    rcases List.mem_map.mp hl with ⟨kv, hkv, rfl⟩
    obtain ⟨⟨-, -, hknl, -⟩, hv⟩ := hgood kv hkv
    obtain ⟨-, -, -, hrnl, -⟩ := renderFMValue_facts kv.2 hv
    constructor
    · intro hm
      rcases List.mem_append.mp hm with hin | hin
      · exact hknl hin
      rcases List.mem_cons.mp hin with he | hin'
      · exact absurd he (by decide)
      rcases List.mem_cons.mp hin' with he | hin''
      · exact absurd he (by decide)
      · exact hrnl hin''
    · simp
  have hlne : fmLines fm ≠ [] := by
    simpa [fmLines] using hne
  have hdoc : ("---\n" ++ yamlLines fm ++ "---\n\n" ++ body).toList =
      ['-', '-', '-', '\n'] ++
        ((joinNl (fmLines fm) ++ ['\n', '-', '-', '-', '\n']) ++ ('\n' :: body.toList)) := by
    rw [strToList_append, strToList_append, strToList_append, yamlLines_toList fm hne,
      show ("---\n" : String).toList = ['-', '-', '-', '\n'] from by decide,
      show ("---\n\n" : String).toList = ['-', '-', '-', '\n', '\n'] from by decide]
    simp [List.append_assoc]
  have hmatch : matchFMHeader ("---\n" ++ yamlLines fm ++ "---\n\n" ++ body) =
      some ((joinNl (fmLines fm)).asString, ('\n' :: body.toList).asString) := by
    simp only [matchFMHeader, hdoc]
    have hpref := List.isPrefixOf_iff_prefix.mpr (List.prefix_append
      ['-', '-', '-', '\n']
      ((joinNl (fmLines fm) ++ ['\n', '-', '-', '-', '\n']) ++ ('\n' :: body.toList)))
    rw [if_pos hpref,
      List.drop_left' (by decide : (['-', '-', '-', '\n'] : List Char).length = 4)]
    rw [firstSplitChars_joinNl (fmLines fm) ('\n' :: body.toList) hlinesgood hlne]
  rw [createMarkdownContent, if_neg hne, parseFrontmatterAndBody, hmatch]
  simp only
  have h1 : (splitOnChar '\n' ((joinNl (fmLines fm)).asString).toList).foldl parseYamlLine
      ([] : List (String × FMValue)) = fm := by
    rw [List.toList_asString, splitOnChar_joinNl (fmLines fm)
      (fun l hl => (hlinesgood l hl).1) hlne,
      foldl_parseYamlLine_fmLines fm [] hnodup hgood (by simp)]
    rfl
  have h2 : ('\n' :: body.toList).asString = "\n" ++ body := by
    rw [show ('\n' :: body.toList) = ("\n" ++ body).toList from by
      rw [strToList_append]; rfl]
    rw [String.asString_toList]
  rw [h1, h2]

/-- C3 (witness for the amended theorem): a concrete four-entry front matter
with all four value kinds round-trips, with the body gaining its single
leading newline. -/
theorem parse_createMarkdownContent_roundTrip_witness :
    parseFrontmatterAndBody (createMarkdownContent
        [("a", FMValue.str "x y"), ("n", FMValue.num (-42)),
         ("flag", FMValue.bool true), ("tags", FMValue.list ["t1", "t 2"])] "Hello\nWorld") =
      ([("a", FMValue.str "x y"), ("n", FMValue.num (-42)),
        ("flag", FMValue.bool true), ("tags", FMValue.list ["t1", "t 2"])], "\nHello\nWorld") :=
  parse_createMarkdownContent_roundTrip
    [("a", FMValue.str "x y"), ("n", FMValue.num (-42)),
     ("flag", FMValue.bool true), ("tags", FMValue.list ["t1", "t 2"])] "Hello\nWorld"
    (by decide) (by decide) (by decide)

end NotionSync
